import Mathlib

/-!
# Verification of the image-variant state machine of the product customizer

This development embeds the Shopify product-customizer front end
(`src/components/AddToCartButton.jsx`, which contains both the
`AddToCartButton` component and the `ProductCustomizer` session controller,
and `src/components/SizeControls.jsx`) as executable Lean definitions and
proves properties of the session state machine, the display/cart
projection, the dimension derivation and the size controls.

JavaScript numbers are embedded as exact rationals (`ℚ`), with
`toFixed(2)` modelled as rounding to the nearest multiple of `1/100`
(half away from zero on nonnegative inputs, which is `round` on the
nonnegative values that arise here).  Remote calls are modelled by an
event-driven small-step semantics: each `async` handler is split at its
`await` points, the shared `AbortController` is modelled by a generation
counter (`gen`), and the environment chooses which pending response
resolves next.  A fetch or body read belonging to a superseded
generation can only reject (`AbortError`), exactly as the browser
guarantees for an aborted request.
-/

namespace Shopify

/-! ## URLs and JS truthiness

A locally-displayable handle produced by `URL.createObjectURL` is a
string of the form `blob:<id>`; we keep the id explicit.  A
remotely-addressable handle is a plain server URL string. -/

/-! Character-level string primitives.  Lean's built-in
`String.startsWith` and friends are position-based and do not reduce in
the kernel, so we use the underlying character lists; the semantics is
the same as the JavaScript methods they model. -/

def strIsEmpty (s : String) : Bool := s == ""

def strStartsWith (s p : String) : Bool := p.data.isPrefixOf s.data

def strEndsWith (s p : String) : Bool := p.data.isSuffixOf s.data

def strDrop (s : String) (n : ℕ) : String := String.mk (s.data.drop n)

def strDropLastChar (s : String) : String := String.mk s.data.dropLast

inductive Url
  | blobU (id : ℕ)
  | serverU (s : String)
deriving Repr, DecidableEq

/-- JS `url.startsWith("blob:")` for our URL representation. -/
def Url.isBlob : Url → Bool
  | .blobU _ => true
  | .serverU s => strStartsWith s "blob:"

/-- JS truthiness of a URL value (`blob:<id>` strings are never empty). -/
def Url.truthy : Url → Bool
  | .blobU _ => true
  | .serverU s => !strIsEmpty s

/-- JS truthiness of a nullable URL. -/
def truthyU : Option Url → Bool
  | none => false
  | some u => u.truthy

/-- JS truthiness of a nullable string (e.g. a response header value). -/
def truthyS : Option String → Bool
  | none => false
  | some s => !strIsEmpty s

/-- JS `x || null` on a nullable URL. -/
def orNull (u : Option Url) : Option Url :=
  if truthyU u then u else none

def API_BASE : String := "https://highquality.allgovjobs.com/backend"

/-- `buildServerUrl(path)` from the source: `null` for a falsy path,
otherwise the base with a single slash joined to the path. -/
def buildServerUrl (path : Option String) : Option Url :=
  match path with
  | none => none
  | some p =>
    if strIsEmpty p then none
    else
      let base := if strEndsWith API_BASE "/" then strDropLastChar API_BASE else API_BASE
      let p2 := if strStartsWith p "/" then strDrop p 1 else p
      some (Url.serverU (base ++ "/" ++ p2))

/-! ## Dimension derivation (`getImageDimensionsInInches`) -/

def DIMENSION_MIN : ℚ := 1/2
def DIMENSION_MAX : ℚ := 45/2
def DPI : ℚ := 300

/-- JS `+v.toFixed(2)` on the nonnegative numbers that arise here:
round to the nearest multiple of `1/100`. -/
def toFixed2 (q : ℚ) : ℚ := (round (q * 100) : ℚ) / 100

/-- The success continuation of `getImageDimensionsInInches`: convert the
image's natural pixel dimensions to inches at `DPI`, round to two
decimals, and clamp into `[DIMENSION_MIN, DIMENSION_MAX]`. -/
def getImageDimensionsInInches (naturalWidth naturalHeight : ℕ) : ℚ × ℚ :=
  let wInches : ℚ := naturalWidth / DPI
  let hInches : ℚ := naturalHeight / DPI
  (min DIMENSION_MAX (max DIMENSION_MIN (toFixed2 wInches)),
   min DIMENSION_MAX (max DIMENSION_MIN (toFixed2 hInches)))

/-! ## `AddToCartButton` -/

structure CartProps where
  variantId : Option String
  imageUrl : Option String
  width : ℚ
  height : ℚ
  preCut : Bool
  quantity : ℕ
deriving Repr, DecidableEq

/-- `isServerUrl`: the image URL is truthy and does not start with `blob:`. -/
def isServerUrl (p : CartProps) : Bool :=
  match p.imageUrl with
  | none => false
  | some s => !strIsEmpty s && !strStartsWith s "blob:"

/-- `isValid`: server URL, positive dimensions, truthy variant id. -/
def isValid (p : CartProps) : Bool :=
  isServerUrl p && decide (0 < p.width) && decide (0 < p.height) && truthyS p.variantId

structure BtnState where
  isLoading : Bool
  error : Option String
  success : Bool
deriving Repr, DecidableEq

/-- The line-item payload posted to `/cart/add.js`. -/
structure CartRequest where
  id : String
  quantity : ℕ
  areaX : ℚ
  areaY : ℚ
  preCutFlag : String
  customImage : String
deriving Repr, DecidableEq

/-- The synchronous part of `addToCart` up to the `fetch`: the guard
`if (!isValid || isLoading) return;` followed by the loading/error/success
updates and the construction of the request body.  Returns the new local
button state and the request issued, if any. -/
def addToCart (p : CartProps) (st : BtnState) : BtnState × Option CartRequest :=
  if !(isValid p) || st.isLoading then (st, none)
  else
    ({ st with isLoading := true, error := none, success := false },
     some { id := p.variantId.getD ""
            quantity := p.quantity
            areaX := toFixed2 p.width
            areaY := toFixed2 p.height
            preCutFlag := if p.preCut then "Yes" else "No"
            customImage := p.imageUrl.getD "" })

/-! ## `SizeControls` -/

def MIN_SIZE : ℚ := 1/2
def MAX_SIZE : ℚ := 45/2
def STEP_INCHES : ℚ := 1

/-- `clamp` from `SizeControls.jsx`: clamp to `[MIN_SIZE, MAX_SIZE]` and
round to two decimals (`+Math.min(MAX, Math.max(MIN, v)).toFixed(2)`). -/
def clampSize (v : ℚ) : ℚ := toFixed2 (min MAX_SIZE (max MIN_SIZE v))

/-- `aspectRatio = width > 0 ? height / width : 1`. -/
def aspectOf (width height : ℚ) : ℚ := if 0 < width then height / width else 1

/-- `updateWidthAndHeight`: clamp both values and set them. -/
def updateWidthAndHeight (nw nh : ℚ) : ℚ × ℚ := (clampSize nw, clampSize nh)

def incrementWidth (width height : ℚ) : ℚ × ℚ :=
  let ratio := aspectOf width height
  let w0 := min MAX_SIZE (toFixed2 (width + STEP_INCHES))
  let h0 := w0 * ratio
  let wh :=
    if MAX_SIZE < h0 then (MAX_SIZE / ratio, MAX_SIZE)
    else if h0 < MIN_SIZE then (MIN_SIZE / ratio, MIN_SIZE)
    else (w0, h0)
  updateWidthAndHeight wh.1 wh.2

def decrementWidth (width height : ℚ) : ℚ × ℚ :=
  let ratio := aspectOf width height
  let w0 := max MIN_SIZE (toFixed2 (width - STEP_INCHES))
  let h0 := w0 * ratio
  let wh :=
    if MAX_SIZE < h0 then (MAX_SIZE / ratio, MAX_SIZE)
    else if h0 < MIN_SIZE then (MIN_SIZE / ratio, MIN_SIZE)
    else (w0, h0)
  updateWidthAndHeight wh.1 wh.2

def incrementHeight (width height : ℚ) : ℚ × ℚ :=
  let ratio := aspectOf width height
  let h0 := min MAX_SIZE (toFixed2 (height + STEP_INCHES))
  let w0 := h0 / ratio
  let wh :=
    if MAX_SIZE < w0 then (MAX_SIZE, MAX_SIZE * ratio)
    else if w0 < MIN_SIZE then (MIN_SIZE, MIN_SIZE * ratio)
    else (w0, h0)
  updateWidthAndHeight wh.1 wh.2

def decrementHeight (width height : ℚ) : ℚ × ℚ :=
  let ratio := aspectOf width height
  let h0 := max MIN_SIZE (toFixed2 (height - STEP_INCHES))
  let w0 := h0 / ratio
  let wh :=
    if MAX_SIZE < w0 then (MAX_SIZE, MAX_SIZE * ratio)
    else if w0 < MIN_SIZE then (MIN_SIZE, MIN_SIZE * ratio)
    else (w0, h0)
  updateWidthAndHeight wh.1 wh.2

/-- The content of a width/height text field after `parseFloat`:
a number, the empty string, or not a number. -/
inductive SizeInput
  | numeric (v : ℚ)
  | empty
  | invalid
deriving Repr, DecidableEq

def handleWidthChange (width height : ℚ) : SizeInput → ℚ × ℚ
  | .numeric v =>
    if MIN_SIZE ≤ v ∧ v ≤ MAX_SIZE then
      (toFixed2 v, clampSize (v * aspectOf width height))
    else (width, height)
  | .empty => (MIN_SIZE, height)
  | .invalid => (width, height)

def handleHeightChange (width height : ℚ) : SizeInput → ℚ × ℚ
  | .numeric v =>
    if MIN_SIZE ≤ v ∧ v ≤ MAX_SIZE then
      (clampSize (v / aspectOf width height), toFixed2 v)
    else (width, height)
  | .empty => (width, MIN_SIZE)
  | .invalid => (width, height)

def selectPredefined (w h : ℚ) : ℚ × ℚ := (clampSize w, clampSize h)

/-- One user interaction with the size controls. -/
inductive SizeOp
  | incW
  | decW
  | incH
  | decH
  | inputW (i : SizeInput)
  | inputH (i : SizeInput)
  | preset (w h : ℚ)
deriving Repr, DecidableEq

def sizeStep (width height : ℚ) : SizeOp → ℚ × ℚ
  | .incW => incrementWidth width height
  | .decW => decrementWidth width height
  | .incH => incrementHeight width height
  | .decH => decrementHeight width height
  | .inputW i => handleWidthChange width height i
  | .inputH i => handleHeightChange width height i
  | .preset w h => selectPredefined w h

/-! ## The `ProductCustomizer` session state machine

The session controller's `async` handlers are split at their `await`
points.  A remote processing call lives in `calls` from the moment its
`fetch` is dispatched until its body resolves or it rejects; its `gen`
is the value of the abort-generation counter at dispatch time, so a call
is *current* iff `gen` still equals the state's counter.  Aborting
(starting a newer call, or pressing Stop) increments the counter. -/

abbrev ImgBlob := ℕ

/-- The two response headers a processing endpoint returns
(`X-Image-Link`/`X-AutoEnhance-Link` and `X-Original-Image-Link`). -/
structure RespHeaders where
  serverLink : Option String
  originalLink : Option String
deriving Repr, DecidableEq

/-- Which handler dispatched a remote processing call. -/
inductive CallKind
  | uploadBg
  | buttonBg
  | toggleBg
  | enhance
deriving Repr, DecidableEq

/-- Where a call is suspended: before its `fetch` resolved, or after the
headers were processed but before `res.blob()` resolved. -/
inductive CallPhase
  | awaitFetch
  | awaitBlob
deriving Repr, DecidableEq

structure PCall where
  gen : ℕ
  kind : CallKind
  phase : CallPhase
deriving Repr, DecidableEq

structure CState where
  imageUrl : Option Url
  width : ℚ
  height : ℚ
  currentImageBlob : Option ImgBlob
  originalImageBlob : Option ImgBlob
  processedImageBlob : Option ImgBlob
  originalImageUrl : Option Url
  processedImageUrl : Option Url
  originalServerUrl : Option Url
  processedServerUrl : Option Url
  finalImageUrl : Option Url
  loadingRemoveBg : Bool
  loadingEnhance : Bool
  removeBgEnabled : Bool
  currentBlobUrlRef : Option Url
  originalBlobUrlRef : Option Url
  processedBlobUrlRef : Option Url
  gen : ℕ
  calls : List (ℕ × PCall)
  nextCallId : ℕ
  nextBlobId : ℕ
  createdUrls : List Url
  revocations : List Url
  dimReqs : List (ℕ × Url)
  nextDimId : ℕ
  fetchCount : ℕ
deriving Repr, DecidableEq

def initState : CState where
  imageUrl := none
  width := 10
  height := 10
  currentImageBlob := none
  originalImageBlob := none
  processedImageBlob := none
  originalImageUrl := none
  processedImageUrl := none
  originalServerUrl := none
  processedServerUrl := none
  finalImageUrl := none
  loadingRemoveBg := false
  loadingEnhance := false
  removeBgEnabled := true
  currentBlobUrlRef := none
  originalBlobUrlRef := none
  processedBlobUrlRef := none
  gen := 0
  calls := []
  nextCallId := 0
  nextBlobId := 0
  createdUrls := []
  revocations := []
  dimReqs := []
  nextDimId := 0
  fetchCount := 0

/-- `URL.revokeObjectURL(u)` guarded by
`if (u && u.startsWith("blob:"))`, as every call site in the source
does (the surrounding try/catch never changes state). -/
def revokeIfBlob (s : CState) (u : Option Url) : CState :=
  match u with
  | some url => if url.isBlob then { s with revocations := s.revocations ++ [url] } else s
  | none => s

/-- `URL.createObjectURL`: a fresh locally-displayable handle. -/
def createObjectURL (s : CState) : CState × Url :=
  let u := Url.blobU s.nextBlobId
  ({ s with nextBlobId := s.nextBlobId + 1, createdUrls := s.createdUrls ++ [u] }, u)

/-- `getImageDimensionsInInches(url).then(...)`: register a pending
asynchronous dimension read (the source never cancels these). -/
def requestDims (s : CState) (u : Url) : CState :=
  { s with dimReqs := s.dimReqs ++ [(s.nextDimId, u)], nextDimId := s.nextDimId + 1 }

/-- `updateDimensionsFromImageUrl`: `if (!url) return;` then read
dimensions asynchronously. -/
def updateDimensionsFromImageUrl (s : CState) (u : Option Url) : CState :=
  match u with
  | none => s
  | some url => if url.truthy then requestDims s url else s

/-- `abortControllerRef.current?.abort(); abortControllerRef.current =
new AbortController();` followed by dispatching the `fetch`: all older
calls become stale, the new call is the unique current one. -/
def startCall (s : CState) (k : CallKind) : CState :=
  let g := s.gen + 1
  { s with
    gen := g
    calls := s.calls ++ [(s.nextCallId, ⟨g, k, CallPhase.awaitFetch⟩)]
    nextCallId := s.nextCallId + 1
    fetchCount := s.fetchCount + 1 }

def lookupCall (s : CState) (cid : ℕ) : Option PCall :=
  (s.calls.lookup cid)

def setPhase (calls : List (ℕ × PCall)) (cid : ℕ) (ph : CallPhase) : List (ℕ × PCall) :=
  calls.map (fun p => if p.1 = cid then (p.1, { p.2 with phase := ph }) else p)

def removeCall (calls : List (ℕ × PCall)) (cid : ℕ) : List (ℕ × PCall) :=
  calls.filter (fun p => p.1 != cid)

/-- `handleImageUpload(url, file)` up to its first `await`: revoke the
superseded display handles, store the fresh original, reset the
processed artifact and all server URLs, show the original, request a
dimension read, and — when auto-processing is enabled — dispatch the
remove-background call.  The blob URL handed in by the upload panel is
modelled as created here (it is created by this session just before the
handler is invoked). -/
def handleImageUpload (s0 : CState) (file : ImgBlob) : CState :=
  let su := createObjectURL s0
  let s1 := su.1
  let url := su.2
  let s2 :=
    match s1.originalBlobUrlRef with
    | some old => if old.isBlob && (old != url) then { s1 with revocations := s1.revocations ++ [old] } else s1
    | none => s1
  let s3 := revokeIfBlob s2 s2.processedBlobUrlRef
  let s4 := { s3 with
    originalImageBlob := some file
    originalImageUrl := some url
    originalBlobUrlRef := some url
    processedImageBlob := none
    processedImageUrl := none
    originalServerUrl := none
    processedServerUrl := none
    processedBlobUrlRef := none
    finalImageUrl := none
    currentBlobUrlRef := some url
    imageUrl := some url
    currentImageBlob := some file }
  let s5 := requestDims s4 url
  if s5.removeBgEnabled then
    let s6 := startCall s5 CallKind.uploadBg
    { s6 with loadingRemoveBg := true }
  else s5

/-- `handleRemoveBg` up to its first `await`:
`if (!currentImageBlob || loadingRemoveBg) return;` then abort any
in-flight call and dispatch the remove-background `fetch`. -/
def handleRemoveBg (s : CState) : CState :=
  match s.currentImageBlob with
  | none => s
  | some _ =>
    if s.loadingRemoveBg then s
    else
      let s1 := startCall s CallKind.buttonBg
      { s1 with loadingRemoveBg := true }

/-- `handleEnhance` up to its first `await`:
`if (!currentImageBlob || loadingEnhance) return;` then abort any
in-flight call and dispatch the enhance `fetch`. -/
def handleEnhance (s : CState) : CState :=
  match s.currentImageBlob with
  | none => s
  | some _ =>
    if s.loadingEnhance then s
    else
      let s1 := startCall s CallKind.enhance
      { s1 with loadingEnhance := true }

/-- `handleCancelProcessing`: abort the in-flight call and clear both
loading flags. -/
def handleCancelProcessing (s : CState) : CState :=
  { s with gen := s.gen + 1, loadingRemoveBg := false, loadingEnhance := false }

/-- `handleClearDesign`: revoke the original and processed display
handles and reset the image state.  (The source does *not* abort an
in-flight call here.) -/
def handleClearDesign (s : CState) : CState :=
  let s1 := revokeIfBlob s s.originalBlobUrlRef
  let s2 := revokeIfBlob s1 s1.processedBlobUrlRef
  { s2 with
    currentBlobUrlRef := none
    originalBlobUrlRef := none
    processedBlobUrlRef := none
    imageUrl := none
    currentImageBlob := none
    originalImageBlob := none
    originalImageUrl := none
    processedImageBlob := none
    processedImageUrl := none
    originalServerUrl := none
    processedServerUrl := none
    finalImageUrl := none }

/-- The unmount cleanup effect: revoke the original and processed
display handles. -/
def teardown (s : CState) : CState :=
  revokeIfBlob (revokeIfBlob s s.originalBlobUrlRef) s.processedBlobUrlRef

/-- `handleToggleRemoveBg(enabled)`: set the toggle, then reuse the
cached original (off) or cached processed artifact (on), or dispatch a
remove-background call when enabling with no processed artifact yet. -/
def handleToggleRemoveBg (s0 : CState) (enabled : Bool) : CState :=
  let s := { s0 with removeBgEnabled := enabled }
  if !enabled && truthyU s.originalImageUrl && s.originalImageBlob.isSome then
    let s1 := { s with
      currentBlobUrlRef := s.originalImageUrl
      imageUrl := s.originalImageUrl
      currentImageBlob := s.originalImageBlob
      finalImageUrl := orNull s.originalServerUrl }
    updateDimensionsFromImageUrl s1 s.originalImageUrl
  else if enabled && truthyU s.processedImageUrl && s.processedImageBlob.isSome then
    let s1 := { s with
      currentBlobUrlRef := s.processedImageUrl
      imageUrl := s.processedImageUrl
      currentImageBlob := s.processedImageBlob
      finalImageUrl := orNull s.processedServerUrl }
    updateDimensionsFromImageUrl s1 s.processedImageUrl
  else if enabled && s.originalImageBlob.isSome && !s.processedImageBlob.isSome then
    let s1 := startCall s CallKind.toggleBg
    { s1 with loadingRemoveBg := true }
  else s

/-- The header-processing segment common to all four call sites: read
the processed link (`X-Image-Link`, or `X-AutoEnhance-Link` for
enhance) and the original link (`X-Original-Image-Link`); when truthy,
store the processed server URL (also as the cart URL) and the original
server URL. -/
def applyHeaders (s : CState) (r : RespHeaders) : CState :=
  let s1 :=
    if truthyS r.serverLink then
      let pu := buildServerUrl r.serverLink
      { s with processedServerUrl := pu, finalImageUrl := pu }
    else s
  if truthyS r.originalLink then
    { s1 with originalServerUrl := buildServerUrl r.originalLink }
  else s1

/-- Remove the call and run its `finally` block (clear the loading flag
of the call's own operation). -/
def finishCall (s : CState) (k : CallKind) (cid : ℕ) : CState :=
  let s1 := { s with calls := removeCall s.calls cid }
  match k with
  | CallKind.enhance => { s1 with loadingEnhance := false }
  | _ => { s1 with loadingRemoveBg := false }

/-- Body continuation of the upload-time auto remove-background call
(store the processed blob, create and show its display URL, request a
dimension read). -/
def blobOkUpload (s : CState) (b : ImgBlob) : CState :=
  let s1 := { s with processedImageBlob := some b }
  let su := createObjectURL s1
  let s2 := su.1
  let newUrl := su.2
  let s3 := { s2 with
    processedImageUrl := some newUrl
    processedBlobUrlRef := some newUrl
    currentBlobUrlRef := some newUrl
    imageUrl := some newUrl
    currentImageBlob := some b }
  updateDimensionsFromImageUrl s3 (some newUrl)

/-- Body continuation of `handleRemoveBg` (revokes the previous
processed display URL and the current display URL before switching,
then requests a dimension read). -/
def blobOkButton (s : CState) (b : ImgBlob) : CState :=
  let s1 := { s with processedImageBlob := some b, currentImageBlob := some b }
  let su := createObjectURL s1
  let s2 := su.1
  let newUrl := su.2
  let s3 := revokeIfBlob s2 s2.processedBlobUrlRef
  let s4 := { s3 with processedBlobUrlRef := some newUrl, processedImageUrl := some newUrl }
  let s5 := revokeIfBlob s4 s4.currentBlobUrlRef
  let s6 := { s5 with currentBlobUrlRef := some newUrl, imageUrl := some newUrl }
  updateDimensionsFromImageUrl s6 (some newUrl)

/-- Body continuation of `handleEnhance`: identical to `blobOkButton`
except that it deliberately does not re-derive the physical
dimensions. -/
def blobOkEnhance (s : CState) (b : ImgBlob) : CState :=
  let s1 := { s with processedImageBlob := some b, currentImageBlob := some b }
  let su := createObjectURL s1
  let s2 := su.1
  let newUrl := su.2
  let s3 := revokeIfBlob s2 s2.processedBlobUrlRef
  let s4 := { s3 with processedBlobUrlRef := some newUrl, processedImageUrl := some newUrl }
  let s5 := revokeIfBlob s4 s4.currentBlobUrlRef
  { s5 with currentBlobUrlRef := some newUrl, imageUrl := some newUrl }

/-- Body continuation of the toggle-initiated remove-background call. -/
def blobOkToggle (s : CState) (b : ImgBlob) : CState :=
  let s1 := { s with processedImageBlob := some b }
  let su := createObjectURL s1
  let s2 := su.1
  let newUrl := su.2
  let s3 := { s2 with
    processedImageUrl := some newUrl
    processedBlobUrlRef := some newUrl
    currentBlobUrlRef := some newUrl
    imageUrl := some newUrl
    currentImageBlob := some b }
  updateDimensionsFromImageUrl s3 (some newUrl)

/-- A response's headers arrive for call `cid`.  Only a call whose
`fetch` has not been aborted can resolve (an aborted fetch rejects), so
this is enabled only for the current generation; the synchronous
continuation then runs to the `res.blob()` await. -/
def stepFetchOk (s : CState) (cid : ℕ) (r : RespHeaders) : Option CState :=
  match lookupCall s cid with
  | some c =>
    if c.phase = CallPhase.awaitFetch ∧ c.gen = s.gen then
      some { applyHeaders s r with calls := setPhase s.calls cid CallPhase.awaitBlob }
    else none
  | none => none

/-- Call `cid`'s `fetch` rejects (network failure, or `AbortError` for
a superseded call): the catch block returns and `finally` clears the
loading flag. -/
def stepFetchErr (s : CState) (cid : ℕ) : Option CState :=
  match lookupCall s cid with
  | some c => if c.phase = CallPhase.awaitFetch then some (finishCall s c.kind cid) else none
  | none => none

/-- Call `cid`'s `res.blob()` resolves.  Only possible for the current
generation (an aborted body read rejects). -/
def stepBlobOk (s : CState) (cid : ℕ) (b : ImgBlob) : Option CState :=
  match lookupCall s cid with
  | some c =>
    if c.phase = CallPhase.awaitBlob ∧ c.gen = s.gen then
      let s1 :=
        match c.kind with
        | CallKind.uploadBg => blobOkUpload s b
        | CallKind.buttonBg => blobOkButton s b
        | CallKind.toggleBg => blobOkToggle s b
        | CallKind.enhance => blobOkEnhance s b
      some (finishCall s1 c.kind cid)
    else none
  | none => none

/-- Call `cid`'s `res.blob()` rejects (aborted mid-body or read
failure): catch returns, `finally` clears the loading flag. -/
def stepBlobErr (s : CState) (cid : ℕ) : Option CState :=
  match lookupCall s cid with
  | some c => if c.phase = CallPhase.awaitBlob then some (finishCall s c.kind cid) else none
  | none => none

/-- A pending dimension read resolves: on success set the derived
width/height, on failure only warn (state unchanged).  The source never
cancels these reads. -/
def stepDims (s : CState) (did : ℕ) (r : Option (ℕ × ℕ)) : Option CState :=
  match s.dimReqs.lookup did with
  | some _ =>
    let s1 := { s with dimReqs := s.dimReqs.filter (fun p => p.1 != did) }
    match r with
    | some nwh =>
      let d := getImageDimensionsInInches nwh.1 nwh.2
      some { s1 with width := d.1, height := d.2 }
    | none => some s1
  | none => none

/-- An event of the session: a user action, or the resolution of a
pending asynchronous step chosen by the environment. -/
inductive Ev
  | upload (file : ImgBlob)
  | removeBg
  | enhance
  | toggle (enabled : Bool)
  | cancelProcessing
  | clearDesign
  | fetchOk (cid : ℕ) (r : RespHeaders)
  | fetchErr (cid : ℕ)
  | blobOk (cid : ℕ) (b : ImgBlob)
  | blobErr (cid : ℕ)
  | dims (did : ℕ) (r : Option (ℕ × ℕ))
deriving Repr, DecidableEq

def step (s : CState) : Ev → Option CState
  | .upload f => some (handleImageUpload s f)
  | .removeBg => some (handleRemoveBg s)
  | .enhance => some (handleEnhance s)
  | .toggle e => some (handleToggleRemoveBg s e)
  | .cancelProcessing => some (handleCancelProcessing s)
  | .clearDesign => some (handleClearDesign s)
  | .fetchOk cid r => stepFetchOk s cid r
  | .fetchErr cid => stepFetchErr s cid
  | .blobOk cid b => stepBlobOk s cid b
  | .blobErr cid => stepBlobErr s cid
  | .dims did r => stepDims s did r

def run (s : CState) : List Ev → Option CState
  | [] => some s
  | e :: es =>
    match step s e with
    | some s1 => run s1 es
    | none => none

/-- The cart projection (`cartImageUrl` in the source): the processed
server URL when auto remove-background is enabled, the original server
URL otherwise, `null` when absent. -/
def cartImageUrl (s : CState) : Option Url :=
  if s.removeBgEnabled then orNull s.processedServerUrl else orNull s.originalServerUrl

/-- The display projection: the URL currently shown by the preview. -/
def displayedHandle (s : CState) : Option Url := s.imageUrl

/-- The spec's cart projection, written from the spec's words: if
`autoProcessEnabled`, the processed artifact's remote handle, else the
original's; null when absent (JS-falsy). -/
def cartRemoteHandleSpec (s : CState) : Option Url :=
  if s.removeBgEnabled then orNull s.processedServerUrl else orNull s.originalServerUrl

/-- A value is exactly representable with two decimals. -/
def isTwoDec (q : ℚ) : Prop := ∃ n : ℤ, q = n / 100

/-- Dispatch of the four body continuations on the call kind. -/
def blobOkByKind (s : CState) (b : ImgBlob) : CallKind → CState
  | CallKind.uploadBg => blobOkUpload s b
  | CallKind.buttonBg => blobOkButton s b
  | CallKind.toggleBg => blobOkToggle s b
  | CallKind.enhance => blobOkEnhance s b

/-- The list of URLs revoked by one guarded `revokeObjectURL` call. -/
def revList (u : Option Url) : List Url :=
  match u with
  | some url => if url.isBlob then [url] else []
  | none => []

/-- A concrete session state with one in-flight enhance call awaiting
its body, used to witness the enhance frame property. -/
def enhanceExState : CState :=
  { initState with
    currentImageBlob := some 1
    calls := [(0, ⟨0, CallKind.enhance, CallPhase.awaitBlob⟩)] }

/-- The trace refuting C1: with auto-processing disabled, upload an
image, then run a successful Enhance whose response carries both an
enhanced link and an original link. -/
def enhanceOffTrace : List Ev :=
  [Ev.toggle false, Ev.upload 0, Ev.enhance,
   Ev.fetchOk 0 ⟨some "e1", some "o1"⟩, Ev.blobOk 0 7]

/-- A concrete session state with one in-flight enhance call awaiting
its fetch, with the toggle on, used to witness the C1 agreement property. -/
def enhanceOnExState : CState :=
  { initState with
    currentImageBlob := some 0
    calls := [(0, ⟨0, CallKind.enhance, CallPhase.awaitFetch⟩)] }

/-- The trace refuting C2: upload with auto-processing on; the
remove-background response's headers arrive and are processed; an
Enhance supersedes the still-in-flight call; both pending reads then
reject. -/
def staleHeaderTrace : List Ev :=
  [Ev.upload 0, Ev.fetchOk 0 ⟨some "p1", none⟩, Ev.enhance, Ev.blobErr 0, Ev.fetchErr 1]

/-- The user-visible core of a session state: everything except the
loading indicators and the bookkeeping of pending calls. -/
def coreView (s : CState) :=
  (s.imageUrl, s.width, s.height, s.currentImageBlob, s.originalImageBlob,
   s.processedImageBlob, s.originalImageUrl, s.processedImageUrl,
   s.originalServerUrl, s.processedServerUrl, s.finalImageUrl,
   s.removeBgEnabled, s.currentBlobUrlRef, s.originalBlobUrlRef,
   s.processedBlobUrlRef, s.revocations, s.createdUrls)

/-- A concrete session state holding one stale (superseded) call. -/
def staleExState : CState :=
  { initState with gen := 5, calls := [(0, ⟨1, CallKind.buttonBg, CallPhase.awaitBlob⟩)] }

/-- A concrete session state with cached original and processed
artifacts and both remote handles, used to witness the toggle-reuse
property. -/
def cachedExState : CState :=
  { initState with
    originalImageUrl := some (Url.blobU 0)
    originalImageBlob := some 1
    processedImageUrl := some (Url.blobU 1)
    processedImageBlob := some 2
    processedServerUrl := some (Url.serverU "https://backend/p")
    originalServerUrl := some (Url.serverU "https://backend/o") }

/-- The trace refuting C4: with auto-processing off, upload, run
RemoveBackground (which revokes the original's display URL as the
current display), toggle on and back off (re-displaying the revoked
original URL), then Clear (which revokes the original's URL again). -/
def doubleRevokeTrace : List Ev :=
  [Ev.toggle false, Ev.upload 0, Ev.removeBg,
   Ev.fetchOk 0 ⟨some "p1", some "o1"⟩, Ev.blobOk 0 5, Ev.toggle true, Ev.toggle false]

/-- The list of URLs revoked by the upload handler's guarded
revocation of the previous original display URL (the source also
checks the old URL differs from the incoming one). -/
def revListNe (u : Option Url) (fresh : Url) : List Url :=
  match u with
  | some old => if old.isBlob && (old != fresh) then [old] else []
  | none => []

/-- The reachability invariant backing the amended handle-release
property: every created display URL is revoked or still owned by the
original/processed reference; created URLs are `blob:` URLs with ids
below the allocator counter; the two owning references only hold
created URLs; call generations are bounded by the session generation
and pairwise distinct; a current upload- or toggle-initiated call can
only complete while the processed reference is empty; and the
processed blob and its display reference are set together. -/
structure Inv (s : CState) : Prop where
  covered : ∀ u ∈ s.createdUrls,
    u ∈ s.revocations ∨ s.originalBlobUrlRef = some u ∨ s.processedBlobUrlRef = some u
  createdBlob : ∀ u ∈ s.createdUrls, ∃ k, k < s.nextBlobId ∧ u = Url.blobU k
  orefCreated : ∀ u, s.originalBlobUrlRef = some u → u ∈ s.createdUrls
  prefCreated : ∀ u, s.processedBlobUrlRef = some u → u ∈ s.createdUrls
  gensLe : ∀ pc ∈ s.calls, (pc : ℕ × PCall).2.gen ≤ s.gen
  gensNodup : s.calls.Pairwise (fun a b => a.2.gen ≠ b.2.gen)
  freshKind : ∀ pc ∈ s.calls, (pc : ℕ × PCall).2.gen = s.gen →
    ((pc : ℕ × PCall).2.kind = CallKind.uploadBg ∨ (pc : ℕ × PCall).2.kind = CallKind.toggleBg) →
    s.processedBlobUrlRef = none
  pIff : s.processedImageBlob = none ↔ s.processedBlobUrlRef = none

/-! ## Arithmetic helper lemmas -/

lemma round_le_round {x y : ℚ} (h : x ≤ y) : round x ≤ round y := by
  rw [round_eq, round_eq]
  exact Int.floor_le_floor (by linarith)

lemma isTwoDec_toFixed2 (q : ℚ) : isTwoDec (toFixed2 q) := ⟨round (q * 100), rfl⟩

lemma toFixed2_bounds {q : ℚ} (h1 : 1/2 ≤ q) (h2 : q ≤ 45/2) :
    1/2 ≤ toFixed2 q ∧ toFixed2 q ≤ 45/2 := by
  have hlo : (50 : ℤ) ≤ round (q * 100) := by
    have : round ((50 : ℚ)) ≤ round (q * 100) := round_le_round (by linarith)
    simpa using this
  have hhi : round (q * 100) ≤ (2250 : ℤ) := by
    have : round (q * 100) ≤ round ((2250 : ℚ)) := round_le_round (by linarith)
    simpa using this
  constructor
  · rw [toFixed2, le_div_iff₀ (by norm_num : (0:ℚ) < 100)]
    have : ((50 : ℤ) : ℚ) ≤ (round (q * 100) : ℚ) := by exact_mod_cast hlo
    push_cast at this ⊢
    linarith
  · rw [toFixed2, div_le_iff₀ (by norm_num : (0:ℚ) < 100)]
    have : ((round (q * 100) : ℤ) : ℚ) ≤ ((2250 : ℤ) : ℚ) := by exact_mod_cast hhi
    push_cast at this ⊢
    linarith

lemma clampSize_bounds (v : ℚ) : 1/2 ≤ clampSize v ∧ clampSize v ≤ 45/2 := by
  have h1 : (1:ℚ)/2 ≤ min MAX_SIZE (max MIN_SIZE v) := by
    apply le_min
    · norm_num [MAX_SIZE]
    · exact le_trans (by norm_num [MIN_SIZE]) (le_max_left _ _)
  have h2 : min MAX_SIZE (max MIN_SIZE v) ≤ 45/2 := by
    exact le_trans (min_le_left _ _) (by norm_num [MAX_SIZE])
  exact toFixed2_bounds h1 h2

lemma clampDim_bounds (v : ℚ) :
    DIMENSION_MIN ≤ min DIMENSION_MAX (max DIMENSION_MIN v)
    ∧ min DIMENSION_MAX (max DIMENSION_MIN v) ≤ DIMENSION_MAX := by
  constructor
  · apply le_min
    · norm_num [DIMENSION_MIN, DIMENSION_MAX]
    · exact le_max_left _ _
  · exact min_le_left _ _

/-! ## Claim theorems -/

/-- C5: `addToCart` issues a cart submission only when the projected
cart image URL is a truthy non-`blob:` server URL and both declared
dimensions are strictly positive; whenever any of these preconditions
fails, the call returns without issuing a request and without changing
the local button state. -/
theorem C5_cart_submission_guard :
    (∀ p st req, (addToCart p st).2 = some req →
      (∃ s, p.imageUrl = some s ∧ strIsEmpty s = false ∧ strStartsWith s "blob:" = false)
      ∧ 0 < p.width ∧ 0 < p.height)
    ∧ (∀ p st, ¬(isServerUrl p = true ∧ 0 < p.width ∧ 0 < p.height) →
        addToCart p st = (st, none)) := by
  constructor
  · intro p st req hreq
    rw [addToCart] at hreq
    by_cases hv : (!(isValid p) || st.isLoading) = true
    · rw [if_pos hv] at hreq
      simp at hreq
    · have hvalid : isValid p = true := by
        by_contra hc
        have hfalse : isValid p = false := Bool.not_eq_true _ |>.mp hc
        exact hv (by rw [hfalse]; simp)
      rw [isValid] at hvalid
      simp only [Bool.and_eq_true, decide_eq_true_eq] at hvalid
      obtain ⟨⟨⟨hsrv, hw⟩, hh⟩, _⟩ := hvalid
      refine ⟨?_, hw, hh⟩
      rw [isServerUrl] at hsrv
      cases himg : p.imageUrl with
      | none => rw [himg] at hsrv; simp at hsrv
      | some s =>
        rw [himg] at hsrv
        simp only [Bool.and_eq_true, Bool.not_eq_true'] at hsrv
        exact ⟨s, rfl, hsrv.1, hsrv.2⟩
  · intro p st hfail
    rw [addToCart]
    have hval : isValid p = false := by
      rw [isValid]
      by_contra hc
      apply hfail
      have hta : (isServerUrl p && decide (0 < p.width) && decide (0 < p.height)
          && truthyS p.variantId) = true := Bool.not_eq_false _ |>.mp hc
      simp only [Bool.and_eq_true, decide_eq_true_eq] at hta
      exact ⟨hta.1.1.1, hta.1.1.2, hta.1.2⟩
    rw [hval]
    simp

/-- C5 witness: with a `blob:` image URL the guard rejects and nothing
happens. -/
theorem C5_cart_submission_guard_witness :
    addToCart ⟨some "v1", some "blob:3", 1, 1, false, 1⟩ ⟨false, none, false⟩
      = (⟨false, none, false⟩, none) :=
  C5_cart_submission_guard.2 ⟨some "v1", some "blob:3", 1, 1, false, 1⟩
    ⟨false, none, false⟩ (by decide)

/-- C9: even with a valid non-blob server URL and positive dimensions,
`addToCart` does nothing when `variantId` is absent — the guard carries
a `variantId` precondition beyond the conditions the spec states. -/
theorem C9_variantId_required :
    ∀ p st, isServerUrl p = true → 0 < p.width → 0 < p.height →
      p.variantId = none → addToCart p st = (st, none) := by
  intro p st hsrv hw hh hv
  rw [addToCart]
  have : isValid p = false := by
    rw [isValid, hv]
    simp [truthyS]
  rw [this]
  simp

/-- C9 witness: a concrete valid-looking request with no variant id is
dropped. -/
theorem C9_variantId_required_witness :
    addToCart ⟨none, some "https://img/x.png", 2, 3, true, 1⟩ ⟨false, none, false⟩
      = (⟨false, none, false⟩, none) :=
  C9_variantId_required ⟨none, some "https://img/x.png", 2, 3, true, 1⟩
    ⟨false, none, false⟩ (by decide) (by decide) (by decide) rfl

/-- C7: the derived physical dimensions are `naturalWidth/300` and
`naturalHeight/300` inches rounded to two decimals and clamped into
`[0.5, 22.5]`, so both reported values always lie in that range; a
failed dimension read leaves width and height unchanged (only a warning
is logged), and a successful read stores exactly the derived values. -/
theorem C7_dimension_derivation :
    (∀ nw nh : ℕ,
      getImageDimensionsInInches nw nh
        = (min DIMENSION_MAX (max DIMENSION_MIN ((round ((nw : ℚ) / 3) : ℚ) / 100)),
           min DIMENSION_MAX (max DIMENSION_MIN ((round ((nh : ℚ) / 3) : ℚ) / 100)))
      ∧ DIMENSION_MIN ≤ (getImageDimensionsInInches nw nh).1
      ∧ (getImageDimensionsInInches nw nh).1 ≤ DIMENSION_MAX
      ∧ DIMENSION_MIN ≤ (getImageDimensionsInInches nw nh).2
      ∧ (getImageDimensionsInInches nw nh).2 ≤ DIMENSION_MAX)
    ∧ (∀ s did u, s.dimReqs.lookup did = some u →
        (stepDims s did none).map (fun t => (t.width, t.height))
          = some (s.width, s.height))
    ∧ (∀ s did u nw nh, s.dimReqs.lookup did = some u →
        (stepDims s did (some (nw, nh))).map (fun t => (t.width, t.height))
          = some (getImageDimensionsInInches nw nh)) := by
  refine ⟨?_, ?_, ?_⟩
  · intro nw nh
    have harg : ∀ m : ℕ, toFixed2 ((m : ℚ) / DPI) = (round ((m : ℚ) / 3) : ℚ) / 100 := by
      intro m
      rw [toFixed2, DPI]
      congr 2
      ring_nf
    refine ⟨?_, ?_, ?_, ?_, ?_⟩
    · rw [getImageDimensionsInInches]
      simp only [harg]
    · exact (clampDim_bounds _).1
    · exact (clampDim_bounds _).2
    · exact (clampDim_bounds _).1
    · exact (clampDim_bounds _).2
  · intro s did u hl
    rw [stepDims, hl]
    rfl
  · intro s did u nw nh hl
    rw [stepDims, hl]
    rfl

/-- C7 witness: resolving a pending read with a failure leaves the
declared dimensions at their previous values. -/
theorem C7_dimension_derivation_witness :
    (stepDims { initState with dimReqs := [(0, Url.blobU 0)] } 0 none).map
        (fun t => (t.width, t.height))
      = some (({ initState with dimReqs := [(0, Url.blobU 0)] } : CState).width,
              ({ initState with dimReqs := [(0, Url.blobU 0)] } : CState).height) :=
  C7_dimension_derivation.2.1 { initState with dimReqs := [(0, Url.blobU 0)] } 0
    (Url.blobU 0) rfl

/-- C10: starting from width and height in `[0.5, 22.5]`, every stepper
increment/decrement, accepted numeric text input, preset selection or
empty-input reset keeps both values in `[0.5, 22.5]`; and when the
incoming values are two-decimal values, so are the new ones (every
freshly computed value is rounded to two decimals, and the linked
aspect-ratio adjustment is clamped into the same range). -/
theorem C10_size_controls_invariant :
    ∀ w h op, MIN_SIZE ≤ w → w ≤ MAX_SIZE → MIN_SIZE ≤ h → h ≤ MAX_SIZE →
      ((MIN_SIZE ≤ (sizeStep w h op).1 ∧ (sizeStep w h op).1 ≤ MAX_SIZE)
        ∧ (MIN_SIZE ≤ (sizeStep w h op).2 ∧ (sizeStep w h op).2 ≤ MAX_SIZE))
      ∧ (isTwoDec w → isTwoDec h →
          isTwoDec (sizeStep w h op).1 ∧ isTwoDec (sizeStep w h op).2) := by
  intro w h op hw1 hw2 hh1 hh2
  have hmin : MIN_SIZE = (1:ℚ)/2 := rfl
  have hmax : MAX_SIZE = (45:ℚ)/2 := rfl
  have hclamp : ∀ v : ℚ, (MIN_SIZE ≤ clampSize v ∧ clampSize v ≤ MAX_SIZE) ∧ isTwoDec (clampSize v) := by
    intro v
    refine ⟨?_, isTwoDec_toFixed2 _⟩
    rw [hmin, hmax]
    exact clampSize_bounds v
  have hfix : ∀ v : ℚ, MIN_SIZE ≤ v → v ≤ MAX_SIZE →
      (MIN_SIZE ≤ toFixed2 v ∧ toFixed2 v ≤ MAX_SIZE) ∧ isTwoDec (toFixed2 v) := by
    intro v h1 h2
    refine ⟨?_, isTwoDec_toFixed2 _⟩
    rw [hmin, hmax]
    exact toFixed2_bounds (by rw [hmin] at h1; exact h1) (by rw [hmax] at h2; exact h2)
  cases op with
  | incW =>
    rw [sizeStep, incrementWidth, updateWidthAndHeight]
    exact ⟨⟨(hclamp _).1, (hclamp _).1⟩, fun _ _ => ⟨(hclamp _).2, (hclamp _).2⟩⟩
  | decW =>
    rw [sizeStep, decrementWidth, updateWidthAndHeight]
    exact ⟨⟨(hclamp _).1, (hclamp _).1⟩, fun _ _ => ⟨(hclamp _).2, (hclamp _).2⟩⟩
  | incH =>
    rw [sizeStep, incrementHeight, updateWidthAndHeight]
    exact ⟨⟨(hclamp _).1, (hclamp _).1⟩, fun _ _ => ⟨(hclamp _).2, (hclamp _).2⟩⟩
  | decH =>
    rw [sizeStep, decrementHeight, updateWidthAndHeight]
    exact ⟨⟨(hclamp _).1, (hclamp _).1⟩, fun _ _ => ⟨(hclamp _).2, (hclamp _).2⟩⟩
  | inputW i =>
    cases i with
    | numeric v =>
      rw [sizeStep, handleWidthChange]
      by_cases hv : MIN_SIZE ≤ v ∧ v ≤ MAX_SIZE
      · rw [if_pos hv]
        exact ⟨⟨(hfix v hv.1 hv.2).1, (hclamp _).1⟩,
          fun _ _ => ⟨(hfix v hv.1 hv.2).2, (hclamp _).2⟩⟩
      · rw [if_neg hv]
        exact ⟨⟨⟨hw1, hw2⟩, ⟨hh1, hh2⟩⟩, fun tw th => ⟨tw, th⟩⟩
    | empty =>
      rw [sizeStep, handleWidthChange]
      refine ⟨⟨⟨le_refl _, by rw [hmin, hmax]; norm_num⟩, ⟨hh1, hh2⟩⟩, fun _ th => ⟨⟨50, by rw [hmin]; norm_num⟩, th⟩⟩
    | invalid =>
      rw [sizeStep, handleWidthChange]
      exact ⟨⟨⟨hw1, hw2⟩, ⟨hh1, hh2⟩⟩, fun tw th => ⟨tw, th⟩⟩
  | inputH i =>
    cases i with
    | numeric v =>
      rw [sizeStep, handleHeightChange]
      by_cases hv : MIN_SIZE ≤ v ∧ v ≤ MAX_SIZE
      · rw [if_pos hv]
        exact ⟨⟨(hclamp _).1, (hfix v hv.1 hv.2).1⟩,
          fun _ _ => ⟨(hclamp _).2, (hfix v hv.1 hv.2).2⟩⟩
      · rw [if_neg hv]
        exact ⟨⟨⟨hw1, hw2⟩, ⟨hh1, hh2⟩⟩, fun tw th => ⟨tw, th⟩⟩
    | empty =>
      rw [sizeStep, handleHeightChange]
      refine ⟨⟨⟨hw1, hw2⟩, ⟨le_refl _, by rw [hmin, hmax]; norm_num⟩⟩, fun tw _ => ⟨tw, ⟨50, by rw [hmin]; norm_num⟩⟩⟩
    | invalid =>
      rw [sizeStep, handleHeightChange]
      exact ⟨⟨⟨hw1, hw2⟩, ⟨hh1, hh2⟩⟩, fun tw th => ⟨tw, th⟩⟩
  | preset pw ph =>
    rw [sizeStep, selectPredefined]
    exact ⟨⟨(hclamp _).1, (hclamp _).1⟩, fun _ _ => ⟨(hclamp _).2, (hclamp _).2⟩⟩

lemma revokeIfBlob_eq (s : CState) (u : Option Url) :
    ∃ r, revokeIfBlob s u = { s with revocations := r } := by
  cases u with
  | none => exact ⟨s.revocations, rfl⟩
  | some url =>
    rw [revokeIfBlob]
    by_cases h : url.isBlob
    · exact ⟨s.revocations ++ [url], by rw [if_pos h]⟩
    · exact ⟨s.revocations, by rw [if_neg h]⟩

lemma updateDims_eq (s : CState) (u : Option Url) :
    ∃ d n, updateDimensionsFromImageUrl s u = { s with dimReqs := d, nextDimId := n } := by
  cases u with
  | none => exact ⟨s.dimReqs, s.nextDimId, rfl⟩
  | some url =>
    rw [updateDimensionsFromImageUrl]
    by_cases h : url.truthy
    · exact ⟨s.dimReqs ++ [(s.nextDimId, url)], s.nextDimId + 1, by rw [if_pos h]; rfl⟩
    · exact ⟨s.dimReqs, s.nextDimId, by rw [if_neg h]⟩

lemma stepBlobOk_current (s : CState) (cid : ℕ) (k : CallKind) (b : ImgBlob)
    (hl : lookupCall s cid = some ⟨s.gen, k, CallPhase.awaitBlob⟩) :
    stepBlobOk s cid b = some (finishCall (blobOkByKind s b k) k cid) := by
  cases k <;> (rw [stepBlobOk, hl]; simp [blobOkByKind])

lemma revokeIfBlob_as (s : CState) (u : Option Url) :
    revokeIfBlob s u = { s with revocations := s.revocations ++ revList u } := by
  cases u with
  | none => simp [revokeIfBlob, revList]
  | some url =>
    rw [revokeIfBlob, revList]
    by_cases h : url.isBlob
    · rw [if_pos h, if_pos h]
    · rw [if_neg h, if_neg h]
      simp

lemma blobOkEnhance_eq (s : CState) (b : ImgBlob) :
    blobOkEnhance s b = { s with
      imageUrl := some (Url.blobU s.nextBlobId)
      currentImageBlob := some b
      processedImageBlob := some b
      processedImageUrl := some (Url.blobU s.nextBlobId)
      currentBlobUrlRef := some (Url.blobU s.nextBlobId)
      processedBlobUrlRef := some (Url.blobU s.nextBlobId)
      nextBlobId := s.nextBlobId + 1
      createdUrls := s.createdUrls ++ [Url.blobU s.nextBlobId]
      revocations := s.revocations ++ revList s.processedBlobUrlRef
        ++ revList s.currentBlobUrlRef } := by
  rw [blobOkEnhance]
  simp only [createObjectURL, revokeIfBlob_as]

lemma blobOkButton_eq (s : CState) (b : ImgBlob) :
    blobOkButton s b = { s with
      imageUrl := some (Url.blobU s.nextBlobId)
      currentImageBlob := some b
      processedImageBlob := some b
      processedImageUrl := some (Url.blobU s.nextBlobId)
      currentBlobUrlRef := some (Url.blobU s.nextBlobId)
      processedBlobUrlRef := some (Url.blobU s.nextBlobId)
      nextBlobId := s.nextBlobId + 1
      createdUrls := s.createdUrls ++ [Url.blobU s.nextBlobId]
      revocations := s.revocations ++ revList s.processedBlobUrlRef
        ++ revList s.currentBlobUrlRef
      dimReqs := s.dimReqs ++ [(s.nextDimId, Url.blobU s.nextBlobId)]
      nextDimId := s.nextDimId + 1 } := by
  rw [blobOkButton]
  simp only [createObjectURL, revokeIfBlob_as]
  rw [updateDimensionsFromImageUrl]
  simp [Url.truthy, requestDims]

lemma blobOkUpload_eq (s : CState) (b : ImgBlob) :
    blobOkUpload s b = { s with
      imageUrl := some (Url.blobU s.nextBlobId)
      currentImageBlob := some b
      processedImageBlob := some b
      processedImageUrl := some (Url.blobU s.nextBlobId)
      currentBlobUrlRef := some (Url.blobU s.nextBlobId)
      processedBlobUrlRef := some (Url.blobU s.nextBlobId)
      nextBlobId := s.nextBlobId + 1
      createdUrls := s.createdUrls ++ [Url.blobU s.nextBlobId]
      dimReqs := s.dimReqs ++ [(s.nextDimId, Url.blobU s.nextBlobId)]
      nextDimId := s.nextDimId + 1 } := by
  rw [blobOkUpload]
  simp only [createObjectURL]
  rw [updateDimensionsFromImageUrl]
  simp [Url.truthy, requestDims]

lemma blobOkToggle_eq (s : CState) (b : ImgBlob) :
    blobOkToggle s b = { s with
      imageUrl := some (Url.blobU s.nextBlobId)
      currentImageBlob := some b
      processedImageBlob := some b
      processedImageUrl := some (Url.blobU s.nextBlobId)
      currentBlobUrlRef := some (Url.blobU s.nextBlobId)
      processedBlobUrlRef := some (Url.blobU s.nextBlobId)
      nextBlobId := s.nextBlobId + 1
      createdUrls := s.createdUrls ++ [Url.blobU s.nextBlobId]
      dimReqs := s.dimReqs ++ [(s.nextDimId, Url.blobU s.nextBlobId)]
      nextDimId := s.nextDimId + 1 } := by
  rw [blobOkToggle]
  simp only [createObjectURL]
  rw [updateDimensionsFromImageUrl]
  simp [Url.truthy, requestDims]

/-- C8: a successful `Enhance` updates the processed artifact and the
displayed image but leaves the declared width/height and the pending
dimension reads untouched (no re-derivation), whereas a successful
`RemoveBackground` issues a dimension read for the new display URL. -/
theorem C8_enhance_frame :
    (∀ s cid b s', lookupCall s cid = some ⟨s.gen, CallKind.enhance, CallPhase.awaitBlob⟩ →
      stepBlobOk s cid b = some s' →
      s'.width = s.width ∧ s'.height = s.height ∧ s'.dimReqs = s.dimReqs
      ∧ s'.processedImageBlob = some b
      ∧ s'.imageUrl = some (Url.blobU s.nextBlobId))
    ∧ (∀ s cid b s', lookupCall s cid = some ⟨s.gen, CallKind.buttonBg, CallPhase.awaitBlob⟩ →
      stepBlobOk s cid b = some s' →
      s'.processedImageBlob = some b
      ∧ s'.imageUrl = some (Url.blobU s.nextBlobId)
      ∧ s'.dimReqs = s.dimReqs ++ [(s.nextDimId, Url.blobU s.nextBlobId)]) := by
  constructor
  · intro s cid b s' hl hstep
    rw [stepBlobOk_current s cid CallKind.enhance b hl] at hstep
    obtain rfl : _ = s' := Option.some_injective _ hstep
    rw [show blobOkByKind s b CallKind.enhance = blobOkEnhance s b from rfl,
      blobOkEnhance_eq]
    rw [finishCall]
    exact ⟨rfl, rfl, rfl, rfl, rfl⟩
  · intro s cid b s' hl hstep
    rw [stepBlobOk_current s cid CallKind.buttonBg b hl] at hstep
    obtain rfl : _ = s' := Option.some_injective _ hstep
    rw [show blobOkByKind s b CallKind.buttonBg = blobOkButton s b from rfl,
      blobOkButton_eq]
    rw [finishCall]
    · exact ⟨rfl, rfl, rfl⟩
    · exact fun h => CallKind.noConfusion h

/-- C8 witness: a concrete successful enhance keeps `(width, height)`
at `(10, 10)` while switching the display to the new processed blob. -/
theorem C8_enhance_frame_witness :
    ((stepBlobOk enhanceExState 0 9).getD initState).width = enhanceExState.width
    ∧ ((stepBlobOk enhanceExState 0 9).getD initState).height = enhanceExState.height
    ∧ ((stepBlobOk enhanceExState 0 9).getD initState).dimReqs = enhanceExState.dimReqs
    ∧ ((stepBlobOk enhanceExState 0 9).getD initState).processedImageBlob = some 9
    ∧ ((stepBlobOk enhanceExState 0 9).getD initState).imageUrl
        = some (Url.blobU enhanceExState.nextBlobId) :=
  C8_enhance_frame.1 enhanceExState 0 9 ((stepBlobOk enhanceExState 0 9).getD initState)
    rfl rfl

lemma orNull_truthy (u : Option Url) (h : truthyU u = true) : orNull u = u := by
  rw [orNull, if_pos h]

lemma lookup_setPhase (calls : List (ℕ × PCall)) (cid : ℕ) (ph : CallPhase) :
    (setPhase calls cid ph).lookup cid
      = (calls.lookup cid).map (fun c => { c with phase := ph }) := by
  induction calls with
  | nil => rfl
  | cons hd tl ih =>
    obtain ⟨k, v⟩ := hd
    by_cases h : k = cid
    · subst h
      simp only [setPhase, List.map_cons]
      rw [if_pos trivial]
      simp [List.lookup]
    · have hb : (cid == k) = false := by
        rw [beq_eq_false_iff_ne]
        exact Ne.symm h
      simp only [setPhase, List.map_cons]
      rw [if_neg (by simpa using h)]
      simp only [List.lookup, hb]
      exact ih

lemma stepFetchOk_current (s : CState) (cid : ℕ) (k : CallKind) (r : RespHeaders)
    (hl : lookupCall s cid = some ⟨s.gen, k, CallPhase.awaitFetch⟩) :
    stepFetchOk s cid r
      = some { applyHeaders s r with calls := setPhase s.calls cid CallPhase.awaitBlob } := by
  rw [stepFetchOk, hl]
  simp

lemma applyHeaders_truthy (s : CState) (r : RespHeaders) (h : truthyS r.serverLink = true) :
    applyHeaders s r = { s with
      processedServerUrl := buildServerUrl r.serverLink
      finalImageUrl := buildServerUrl r.serverLink
      originalServerUrl :=
        if truthyS r.originalLink then buildServerUrl r.originalLink
        else s.originalServerUrl } := by
  rw [applyHeaders, if_pos h]
  by_cases h2 : truthyS r.originalLink = true
  · rw [if_pos h2, if_pos h2]
  · rw [if_neg h2, if_neg h2]

lemma buildServerUrl_truthy (p : String) (h : strIsEmpty p = false) :
    truthyU (buildServerUrl (some p)) = true := by
  rw [buildServerUrl]
  rw [if_neg (by rw [h]; exact Bool.false_ne_true)]
  have hb : strEndsWith API_BASE "/" = false := by decide
  rw [hb]
  simp only [Bool.false_eq_true, if_false]
  rw [truthyU, Url.truthy, strIsEmpty]
  simp only [Bool.not_eq_true', beq_eq_false_iff_ne, ne_eq]
  intro hEq
  have hlen := congrArg String.length hEq
  rw [String.length_append, String.length_append] at hlen
  have hA : API_BASE.length = 42 := rfl
  have hS : ("/" : String).length = 1 := rfl
  have hE : ("" : String).length = 0 := rfl
  omega

/-- C1 counterexample: after this successful Enhance with the toggle
off, the preview displays the processed (enhanced) artifact's handle,
but the cart projection is the original's remote handle, which differs
from the processed artifact's remote handle — the cart handle and the
displayed image disagree. -/
theorem C1_counterexample :
    (run initState enhanceOffTrace).map
        (fun s => (displayedHandle s, s.processedImageUrl, cartImageUrl s, s.processedServerUrl))
      = some (some (Url.blobU 1), some (Url.blobU 1),
          some (Url.serverU (API_BASE ++ "/o1")), some (Url.serverU (API_BASE ++ "/e1")))
    ∧ Url.serverU (API_BASE ++ "/o1") ≠ Url.serverU (API_BASE ++ "/e1") := by
  constructor
  · decide
  · decide

lemma truthyU_buildServer (o : Option String) (h : truthyS o = true) :
    truthyU (buildServerUrl o) = true := by
  cases o with
  | none => simp [truthyS] at h
  | some p =>
    apply buildServerUrl_truthy
    rw [truthyS] at h
    simpa using h

/-- C1 amended: the cart projection equals the spec's formula
(processed server URL when the toggle is on, original server URL
otherwise, null when absent), and after a successful Enhance performed
while the toggle is ON the cart handle and the displayed image agree —
both name the enhance result.  (With the toggle off they can disagree,
as the counterexample shows.) -/
theorem C1_cart_projection :
    (∀ s : CState, cartImageUrl s = cartRemoteHandleSpec s)
    ∧ (∀ s cid r b s1 s2,
        lookupCall s cid = some ⟨s.gen, CallKind.enhance, CallPhase.awaitFetch⟩ →
        s.removeBgEnabled = true →
        truthyS r.serverLink = true →
        stepFetchOk s cid r = some s1 →
        stepBlobOk s1 cid b = some s2 →
        displayedHandle s2 = some (Url.blobU s.nextBlobId)
        ∧ s2.processedImageUrl = displayedHandle s2
        ∧ s2.processedServerUrl = buildServerUrl r.serverLink
        ∧ cartImageUrl s2 = buildServerUrl r.serverLink) := by
  constructor
  · intro s
    rfl
  · intro s cid r b s1 s2 hl hen htr h1 h2
    rw [stepFetchOk_current s cid CallKind.enhance r hl] at h1
    obtain rfl := Option.some_injective _ h1
    have hA := applyHeaders_truthy s r htr
    have hl1 : lookupCall
        { applyHeaders s r with calls := setPhase s.calls cid CallPhase.awaitBlob } cid
        = some ⟨s.gen, CallKind.enhance, CallPhase.awaitBlob⟩ := by
      show (setPhase s.calls cid CallPhase.awaitBlob).lookup cid = _
      rw [lookup_setPhase]
      rw [lookupCall] at hl
      rw [hl]
      rfl
    have hgen : ({ applyHeaders s r with
        calls := setPhase s.calls cid CallPhase.awaitBlob } : CState).gen = s.gen := by
      rw [hA]
    rw [stepBlobOk_current _ cid CallKind.enhance b (by rw [hl1, hgen])] at h2
    obtain rfl := Option.some_injective _ h2
    rw [show blobOkByKind _ b CallKind.enhance = blobOkEnhance _ b from rfl,
      blobOkEnhance_eq, finishCall]
    rw [hA]
    refine ⟨rfl, rfl, rfl, ?_⟩
    rw [cartImageUrl]
    have hre : ({ s with
        processedServerUrl := buildServerUrl r.serverLink
        finalImageUrl := buildServerUrl r.serverLink
        originalServerUrl :=
          if truthyS r.originalLink = true then buildServerUrl r.originalLink
          else s.originalServerUrl } : CState).removeBgEnabled = true := hen
    rw [if_pos hre]
    exact orNull_truthy _ (truthyU_buildServer _ htr)

/-- C1 witness: running the enhance-success instance concretely, the
display and the cart projection both name the enhance result. -/
theorem C1_cart_projection_witness :
    displayedHandle ((stepBlobOk ((stepFetchOk enhanceOnExState 0 ⟨some "e", none⟩).getD initState)
        0 3).getD initState) = some (Url.blobU enhanceOnExState.nextBlobId)
    ∧ ((stepBlobOk ((stepFetchOk enhanceOnExState 0 ⟨some "e", none⟩).getD initState)
        0 3).getD initState).processedImageUrl
      = displayedHandle ((stepBlobOk ((stepFetchOk enhanceOnExState 0 ⟨some "e", none⟩).getD initState)
        0 3).getD initState)
    ∧ ((stepBlobOk ((stepFetchOk enhanceOnExState 0 ⟨some "e", none⟩).getD initState)
        0 3).getD initState).processedServerUrl = buildServerUrl (some "e")
    ∧ cartImageUrl ((stepBlobOk ((stepFetchOk enhanceOnExState 0 ⟨some "e", none⟩).getD initState)
        0 3).getD initState) = buildServerUrl (some "e") :=
  C1_cart_projection.2 enhanceOnExState 0 ⟨some "e", none⟩ 3
    ((stepFetchOk enhanceOnExState 0 ⟨some "e", none⟩).getD initState)
    ((stepBlobOk ((stepFetchOk enhanceOnExState 0 ⟨some "e", none⟩).getD initState)
      0 3).getD initState)
    rfl rfl (by decide) rfl rfl

/-- C2 counterexample: at the moment Enhance is initiated the
remove-background call is still in flight (awaiting its body), yet its
response has already written the stored processed server URL, and that
write survives the superseding call — the stale response was not
discarded entirely. -/
theorem C2_counterexample :
    (run initState [Ev.upload 0, Ev.fetchOk 0 ⟨some "p1", none⟩]).map
        (fun s => (lookupCall s 0, s.processedServerUrl))
      = some (some ⟨1, CallKind.uploadBg, CallPhase.awaitBlob⟩,
          some (Url.serverU (API_BASE ++ "/p1")))
    ∧ (run initState staleHeaderTrace).map
        (fun s => (s.processedServerUrl, s.finalImageUrl, s.calls))
      = some (some (Url.serverU (API_BASE ++ "/p1")),
          some (Url.serverU (API_BASE ++ "/p1")), []) := by
  constructor
  · decide
  · decide

lemma finishCall_coreView (s : CState) (k : CallKind) (cid : ℕ) :
    coreView (finishCall s k cid) = coreView s := by
  cases k <;> rfl

/-- C2 amended: once a superseding call has been started (the
superseded call's generation is stale), the superseded call can no
longer mutate the artifacts, the stored server URLs, or the displayed
image: its fetch and body read can only reject, and the rejection path
changes nothing but a loading flag and the pending-call bookkeeping.
(Response headers processed before the superseding call was initiated
may already have updated the stored server URLs, and those writes
persist — see the counterexample.) -/
theorem C2_stale_response_frozen :
    ∀ s cid c r b,
      lookupCall s cid = some c → c.gen ≠ s.gen →
      stepFetchOk s cid r = none
      ∧ stepBlobOk s cid b = none
      ∧ (∀ s', stepFetchErr s cid = some s' → coreView s' = coreView s)
      ∧ (∀ s', stepBlobErr s cid = some s' → coreView s' = coreView s) := by
  intro s cid c r b hl hg
  refine ⟨?_, ?_, ?_, ?_⟩
  · simp only [stepFetchOk, hl]
    rw [if_neg (fun hc => hg hc.2)]
  · simp only [stepBlobOk, hl]
    rw [if_neg (fun hc => hg hc.2)]
  · intro s' h
    simp only [stepFetchErr, hl] at h
    by_cases hp : c.phase = CallPhase.awaitFetch
    · rw [if_pos hp] at h
      obtain rfl := Option.some_injective _ h
      exact finishCall_coreView s c.kind cid
    · rw [if_neg hp] at h
      exact absurd h (by simp)
  · intro s' h
    simp only [stepBlobErr, hl] at h
    by_cases hp : c.phase = CallPhase.awaitBlob
    · rw [if_pos hp] at h
      obtain rfl := Option.some_injective _ h
      exact finishCall_coreView s c.kind cid
    · rw [if_neg hp] at h
      exact absurd h (by simp)

/-- C2 witness: at the stale example state, the superseded call's
response can no longer resolve. -/
theorem C2_stale_response_frozen_witness :
    stepFetchOk staleExState 0 ⟨some "p", none⟩ = none
    ∧ stepBlobOk staleExState 0 7 = none :=
  ⟨(C2_stale_response_frozen staleExState 0 ⟨1, CallKind.buttonBg, CallPhase.awaitBlob⟩
      ⟨some "p", none⟩ 7 rfl (by decide)).1,
   (C2_stale_response_frozen staleExState 0 ⟨1, CallKind.buttonBg, CallPhase.awaitBlob⟩
      ⟨some "p", none⟩ 7 rfl (by decide)).2.1⟩

/-- C3: evaluation at the failing input.  A non-2xx response (carrying
no `X-Image-Link`/`X-Original-Image-Link` headers and an error-page
body) is treated like a success: the error body is stored as the
processed artifact and displayed, instead of `processed` staying unset
and the original staying displayed — the code never checks `res.ok`. -/
theorem C3_non2xx_applied :
    (run initState [Ev.upload 0, Ev.fetchOk 0 ⟨none, none⟩, Ev.blobOk 0 5]).map
        (fun s => (s.processedImageBlob, displayedHandle s, s.originalImageUrl, s.processedImageUrl))
      = some (some 5, some (Url.blobU 1), some (Url.blobU 0), some (Url.blobU 1)) := by
  decide

lemma toggleOff_eq (s : CState) (hu : truthyU s.originalImageUrl = true)
    (hb : s.originalImageBlob.isSome = true) :
    handleToggleRemoveBg s false = updateDimensionsFromImageUrl
      { s with
        removeBgEnabled := false
        currentBlobUrlRef := s.originalImageUrl
        imageUrl := s.originalImageUrl
        currentImageBlob := s.originalImageBlob
        finalImageUrl := orNull s.originalServerUrl } s.originalImageUrl := by
  rw [handleToggleRemoveBg]
  rw [if_pos (by simp [hu, hb])]

lemma toggleOnCached_eq (s : CState) (hu : truthyU s.processedImageUrl = true)
    (hb : s.processedImageBlob.isSome = true) :
    handleToggleRemoveBg s true = updateDimensionsFromImageUrl
      { s with
        removeBgEnabled := true
        currentBlobUrlRef := s.processedImageUrl
        imageUrl := s.processedImageUrl
        currentImageBlob := s.processedImageBlob
        finalImageUrl := orNull s.processedServerUrl } s.processedImageUrl := by
  rw [handleToggleRemoveBg]
  rw [if_neg (by simp)]
  rw [if_pos (by simp [hu, hb])]

lemma updateDims_imageUrl (s : CState) (u : Option Url) :
    (updateDimensionsFromImageUrl s u).imageUrl = s.imageUrl := by
  obtain ⟨d, n, h⟩ := updateDims_eq s u
  rw [h]

lemma updateDims_currentImageBlob (s : CState) (u : Option Url) :
    (updateDimensionsFromImageUrl s u).currentImageBlob = s.currentImageBlob := by
  obtain ⟨d, n, h⟩ := updateDims_eq s u
  rw [h]

lemma updateDims_processedImageUrl (s : CState) (u : Option Url) :
    (updateDimensionsFromImageUrl s u).processedImageUrl = s.processedImageUrl := by
  obtain ⟨d, n, h⟩ := updateDims_eq s u
  rw [h]

lemma updateDims_processedImageBlob (s : CState) (u : Option Url) :
    (updateDimensionsFromImageUrl s u).processedImageBlob = s.processedImageBlob := by
  obtain ⟨d, n, h⟩ := updateDims_eq s u
  rw [h]

lemma updateDims_removeBgEnabled (s : CState) (u : Option Url) :
    (updateDimensionsFromImageUrl s u).removeBgEnabled = s.removeBgEnabled := by
  obtain ⟨d, n, h⟩ := updateDims_eq s u
  rw [h]

lemma updateDims_originalServerUrl (s : CState) (u : Option Url) :
    (updateDimensionsFromImageUrl s u).originalServerUrl = s.originalServerUrl := by
  obtain ⟨d, n, h⟩ := updateDims_eq s u
  rw [h]

lemma updateDims_processedServerUrl (s : CState) (u : Option Url) :
    (updateDimensionsFromImageUrl s u).processedServerUrl = s.processedServerUrl := by
  obtain ⟨d, n, h⟩ := updateDims_eq s u
  rw [h]

lemma updateDims_fetchCount (s : CState) (u : Option Url) :
    (updateDimensionsFromImageUrl s u).fetchCount = s.fetchCount := by
  obtain ⟨d, n, h⟩ := updateDims_eq s u
  rw [h]

/-- C6: with a populated processed artifact (remote handle `r1`) and a
cached original remote handle, ToggleAutoProcess(false) switches the
display to the original and the cart projection to the original's
remote handle, and ToggleAutoProcess(true) then restores the processed
display and `r1`, with zero remote processing calls issued by either
toggle. -/
theorem C6_toggle_pure_cache :
    ∀ s u1 ob u2 pb r1 ov,
      s.originalImageUrl = some u1 → u1.truthy = true →
      s.originalImageBlob = some ob →
      s.processedImageUrl = some u2 → u2.truthy = true →
      s.processedImageBlob = some pb →
      s.processedServerUrl = some r1 → r1.truthy = true →
      s.originalServerUrl = some ov → ov.truthy = true →
      (handleToggleRemoveBg s false).imageUrl = some u1
      ∧ (handleToggleRemoveBg s false).currentImageBlob = some ob
      ∧ cartImageUrl (handleToggleRemoveBg s false) = some ov
      ∧ (handleToggleRemoveBg s false).fetchCount = s.fetchCount
      ∧ (handleToggleRemoveBg (handleToggleRemoveBg s false) true).imageUrl = some u2
      ∧ (handleToggleRemoveBg (handleToggleRemoveBg s false) true).currentImageBlob = some pb
      ∧ cartImageUrl (handleToggleRemoveBg (handleToggleRemoveBg s false) true) = some r1
      ∧ (handleToggleRemoveBg (handleToggleRemoveBg s false) true).fetchCount = s.fetchCount := by
  intro s u1 ob u2 pb r1 ov ho1 ht1 hob hp1 ht2 hpb hps htr1 hos htov
  have h1 := toggleOff_eq s (by rw [ho1]; exact ht1) (by rw [hob]; rfl)
  have hq1 : (handleToggleRemoveBg s false).processedImageUrl = some u2 := by
    rw [h1, updateDims_processedImageUrl]
    exact hp1
  have hq2 : (handleToggleRemoveBg s false).processedImageBlob = some pb := by
    rw [h1, updateDims_processedImageBlob]
    exact hpb
  have hq3 : (handleToggleRemoveBg s false).processedServerUrl = some r1 := by
    rw [h1, updateDims_processedServerUrl]
    exact hps
  have hq4 : (handleToggleRemoveBg s false).fetchCount = s.fetchCount := by
    rw [h1, updateDims_fetchCount]
  have h2 := toggleOnCached_eq (handleToggleRemoveBg s false)
    (by rw [hq1]; exact ht2) (by rw [hq2]; rfl)
  refine ⟨?_, ?_, ?_, ?_, ?_, ?_, ?_, ?_⟩
  · rw [h1, updateDims_imageUrl]
    exact ho1
  · rw [h1, updateDims_currentImageBlob]
    exact hob
  · rw [cartImageUrl]
    have hrb : (handleToggleRemoveBg s false).removeBgEnabled = false := by
      rw [h1, updateDims_removeBgEnabled]
    rw [hrb]
    rw [if_neg (by simp)]
    have hsrv : (handleToggleRemoveBg s false).originalServerUrl = some ov := by
      rw [h1, updateDims_originalServerUrl]
      exact hos
    rw [hsrv]
    exact orNull_truthy _ (by rw [truthyU]; exact htov)
  · exact hq4
  · rw [h2, updateDims_imageUrl]
    exact hq1
  · rw [h2, updateDims_currentImageBlob]
    exact hq2
  · rw [cartImageUrl]
    have hrb2 : (handleToggleRemoveBg (handleToggleRemoveBg s false) true).removeBgEnabled
        = true := by
      rw [h2, updateDims_removeBgEnabled]
    rw [hrb2]
    rw [if_pos rfl]
    have hsrv2 : (handleToggleRemoveBg (handleToggleRemoveBg s false) true).processedServerUrl
        = some r1 := by
      rw [h2, updateDims_processedServerUrl]
      exact hq3
    rw [hsrv2]
    exact orNull_truthy _ (by rw [truthyU]; exact htr1)
  · rw [h2, updateDims_fetchCount]
    exact hq4

/-- C6 witness: the two toggles at the cached example state reuse the
cache and issue no remote call. -/
theorem C6_toggle_pure_cache_witness :
    (handleToggleRemoveBg cachedExState false).imageUrl = some (Url.blobU 0)
    ∧ (handleToggleRemoveBg cachedExState false).currentImageBlob = some 1
    ∧ cartImageUrl (handleToggleRemoveBg cachedExState false)
        = some (Url.serverU "https://backend/o")
    ∧ (handleToggleRemoveBg cachedExState false).fetchCount = cachedExState.fetchCount
    ∧ (handleToggleRemoveBg (handleToggleRemoveBg cachedExState false) true).imageUrl
        = some (Url.blobU 1)
    ∧ (handleToggleRemoveBg (handleToggleRemoveBg cachedExState false) true).currentImageBlob
        = some 2
    ∧ cartImageUrl (handleToggleRemoveBg (handleToggleRemoveBg cachedExState false) true)
        = some (Url.serverU "https://backend/p")
    ∧ (handleToggleRemoveBg (handleToggleRemoveBg cachedExState false) true).fetchCount
        = cachedExState.fetchCount :=
  C6_toggle_pure_cache cachedExState (Url.blobU 0) 1 (Url.blobU 1) 2
    (Url.serverU "https://backend/p") (Url.serverU "https://backend/o")
    rfl rfl rfl rfl rfl rfl rfl (by decide) rfl (by decide)

/-- C4 counterexample: along this sequence ending in Clear(), the
original's blob URL is displayed again after it was already revoked,
and ends up revoked twice. -/
theorem C4_counterexample :
    (run initState doubleRevokeTrace).map
        (fun s => (displayedHandle s, s.revocations.count (Url.blobU 0)))
      = some (some (Url.blobU 0), 1)
    ∧ (run initState (doubleRevokeTrace ++ [Ev.clearDesign])).map
        (fun s => (s.revocations.count (Url.blobU 0), s.createdUrls))
      = some (2, [Url.blobU 0, Url.blobU 1]) := by
  constructor
  · decide
  · decide

lemma handleImageUpload_eq (s : CState) (f : ImgBlob) :
    handleImageUpload s f =
      (if s.removeBgEnabled then
        { s with
          nextBlobId := s.nextBlobId + 1
          createdUrls := s.createdUrls ++ [Url.blobU s.nextBlobId]
          revocations := s.revocations
            ++ revListNe s.originalBlobUrlRef (Url.blobU s.nextBlobId)
            ++ revList s.processedBlobUrlRef
          originalImageBlob := some f
          originalImageUrl := some (Url.blobU s.nextBlobId)
          originalBlobUrlRef := some (Url.blobU s.nextBlobId)
          processedImageBlob := none
          processedImageUrl := none
          originalServerUrl := none
          processedServerUrl := none
          processedBlobUrlRef := none
          finalImageUrl := none
          currentBlobUrlRef := some (Url.blobU s.nextBlobId)
          imageUrl := some (Url.blobU s.nextBlobId)
          currentImageBlob := some f
          dimReqs := s.dimReqs ++ [(s.nextDimId, Url.blobU s.nextBlobId)]
          nextDimId := s.nextDimId + 1
          gen := s.gen + 1
          calls := s.calls
            ++ [(s.nextCallId, ⟨s.gen + 1, CallKind.uploadBg, CallPhase.awaitFetch⟩)]
          nextCallId := s.nextCallId + 1
          fetchCount := s.fetchCount + 1
          loadingRemoveBg := true }
      else
        { s with
          nextBlobId := s.nextBlobId + 1
          createdUrls := s.createdUrls ++ [Url.blobU s.nextBlobId]
          revocations := s.revocations
            ++ revListNe s.originalBlobUrlRef (Url.blobU s.nextBlobId)
            ++ revList s.processedBlobUrlRef
          originalImageBlob := some f
          originalImageUrl := some (Url.blobU s.nextBlobId)
          originalBlobUrlRef := some (Url.blobU s.nextBlobId)
          processedImageBlob := none
          processedImageUrl := none
          originalServerUrl := none
          processedServerUrl := none
          processedBlobUrlRef := none
          finalImageUrl := none
          currentBlobUrlRef := some (Url.blobU s.nextBlobId)
          imageUrl := some (Url.blobU s.nextBlobId)
          currentImageBlob := some f
          dimReqs := s.dimReqs ++ [(s.nextDimId, Url.blobU s.nextBlobId)]
          nextDimId := s.nextDimId + 1 }) := by
  rw [handleImageUpload]
  simp only [createObjectURL]
  cases ho : s.originalBlobUrlRef with
  | none =>
    simp only [ho, revListNe, List.append_nil]
    rw [revokeIfBlob_as]
    simp only [startCall, requestDims]
  | some old =>
    simp only [ho, revListNe]
    by_cases hc : (old.isBlob && (old != Url.blobU s.nextBlobId)) = true
    · rw [if_pos hc, if_pos hc]
      rw [revokeIfBlob_as]
      simp only [startCall, requestDims]
    · rw [if_neg hc, if_neg hc]
      rw [revokeIfBlob_as]
      simp only [startCall, requestDims, List.append_nil]

lemma handleClearDesign_eq (s : CState) :
    handleClearDesign s = { s with
      revocations := s.revocations ++ revList s.originalBlobUrlRef
        ++ revList s.processedBlobUrlRef
      currentBlobUrlRef := none
      originalBlobUrlRef := none
      processedBlobUrlRef := none
      imageUrl := none
      currentImageBlob := none
      originalImageBlob := none
      originalImageUrl := none
      processedImageBlob := none
      processedImageUrl := none
      originalServerUrl := none
      processedServerUrl := none
      finalImageUrl := none } := by
  rw [handleClearDesign]
  rw [revokeIfBlob_as, revokeIfBlob_as]

lemma teardown_eq (s : CState) :
    teardown s = { s with
      revocations := s.revocations ++ revList s.originalBlobUrlRef
        ++ revList s.processedBlobUrlRef } := by
  rw [teardown]
  rw [revokeIfBlob_as, revokeIfBlob_as]

lemma applyHeaders_shape (s : CState) (r : RespHeaders) :
    ∃ a b c, applyHeaders s r = { s with
      processedServerUrl := a
      finalImageUrl := b
      originalServerUrl := c } := by
  rw [applyHeaders]
  by_cases h1 : truthyS r.serverLink = true
  · rw [if_pos h1]
    by_cases h2 : truthyS r.originalLink = true
    · rw [if_pos h2]
      exact ⟨_, _, _, rfl⟩
    · rw [if_neg h2]
      exact ⟨buildServerUrl r.serverLink, buildServerUrl r.serverLink, s.originalServerUrl, rfl⟩
  · rw [if_neg h1]
    by_cases h2 : truthyS r.originalLink = true
    · rw [if_pos h2]
      exact ⟨s.processedServerUrl, s.finalImageUrl, buildServerUrl r.originalLink, rfl⟩
    · rw [if_neg h2]
      exact ⟨s.processedServerUrl, s.finalImageUrl, s.originalServerUrl, rfl⟩

lemma lookup_mem {l : List (ℕ × PCall)} {a : ℕ} {b : PCall}
    (h : l.lookup a = some b) : (a, b) ∈ l := by
  induction l with
  | nil => simp [List.lookup] at h
  | cons hd tl ih =>
    rw [List.lookup] at h
    split at h
    next heq =>
      obtain rfl := Option.some_injective _ h
      have ha : a = hd.1 := by simpa using heq
      have hp : (a, hd.2) = hd := by rw [ha]
      rw [hp]
      exact List.mem_cons_self _ _
    next heq =>
      exact List.mem_cons_of_mem _ (ih h)

lemma toggleOnProcess_eq (s : CState)
    (hcond : ¬(truthyU s.processedImageUrl = true ∧ s.processedImageBlob.isSome = true))
    (hb : s.originalImageBlob.isSome = true)
    (hnp : s.processedImageBlob.isSome = false) :
    handleToggleRemoveBg s true = { s with
      removeBgEnabled := true
      gen := s.gen + 1
      calls := s.calls
        ++ [(s.nextCallId, ⟨s.gen + 1, CallKind.toggleBg, CallPhase.awaitFetch⟩)]
      nextCallId := s.nextCallId + 1
      fetchCount := s.fetchCount + 1
      loadingRemoveBg := true } := by
  rw [handleToggleRemoveBg]
  rw [if_neg (by simp)]
  rw [if_neg (by
    intro hx
    simp only [Bool.and_eq_true] at hx
    exact hcond ⟨hx.1.2, hx.2⟩)]
  rw [if_pos (by simp [hb, hnp])]
  rw [startCall]

lemma toggleFlagOnly_eq (s : CState) (e : Bool)
    (h1 : ¬((!e && truthyU s.originalImageUrl && s.originalImageBlob.isSome) = true))
    (h2 : ¬((e && truthyU s.processedImageUrl && s.processedImageBlob.isSome) = true))
    (h3 : ¬((e && s.originalImageBlob.isSome && !s.processedImageBlob.isSome) = true)) :
    handleToggleRemoveBg s e = { s with removeBgEnabled := e } := by
  rw [handleToggleRemoveBg]
  rw [if_neg (by simpa using h1)]
  rw [if_neg (by simpa using h2)]
  rw [if_neg (by simpa using h3)]

/-! ## The handle-lifecycle invariant (for C4) -/

lemma inv_init : Inv initState := by
  constructor <;> simp [initState]

lemma mem_revList_self (u : Url) (h : u.isBlob = true) : u ∈ revList (some u) := by
  rw [revList, if_pos h]
  exact List.mem_singleton.mpr rfl

lemma inv_upload (s : CState) (f : ImgBlob) (hI : Inv s) : Inv (handleImageUpload s f) := by
  rw [handleImageUpload_eq]
  have hcov : ∀ u ∈ s.createdUrls ++ [Url.blobU s.nextBlobId],
      u ∈ s.revocations ++ revListNe s.originalBlobUrlRef (Url.blobU s.nextBlobId)
          ++ revList s.processedBlobUrlRef
      ∨ (some (Url.blobU s.nextBlobId) : Option Url) = some u
      ∨ (none : Option Url) = some u := by
    intro u hu
    rcases List.mem_append.mp hu with hu | hu
    · rcases hI.covered u hu with hr | ho | hp
      · exact Or.inl (List.mem_append_left _ (List.mem_append_left _ hr))
      · left
        apply List.mem_append_left
        apply List.mem_append_right
        rw [ho]
        obtain ⟨k, hk, rfl⟩ := hI.createdBlob u hu
        rw [revListNe]
        rw [if_pos (by simp [Url.isBlob, bne_iff_ne]; omega)]
        exact List.mem_singleton.mpr rfl
      · left
        apply List.mem_append_right
        rw [hp]
        obtain ⟨k, hk, rfl⟩ := hI.createdBlob u hu
        exact mem_revList_self _ rfl
    · rw [List.mem_singleton] at hu
      exact Or.inr (Or.inl (by rw [hu]))
  have hcb : ∀ u ∈ s.createdUrls ++ [Url.blobU s.nextBlobId],
      ∃ k, k < s.nextBlobId + 1 ∧ u = Url.blobU k := by
    intro u hu
    rcases List.mem_append.mp hu with hu | hu
    · obtain ⟨k, hk, rfl⟩ := hI.createdBlob u hu
      exact ⟨k, by omega, rfl⟩
    · rw [List.mem_singleton] at hu
      exact ⟨s.nextBlobId, by omega, hu⟩
  have horef : ∀ u : Url, (some (Url.blobU s.nextBlobId) : Option Url) = some u →
      u ∈ s.createdUrls ++ [Url.blobU s.nextBlobId] := by
    intro u hu
    obtain rfl := Option.some_injective _ hu
    exact List.mem_append_right _ (List.mem_singleton.mpr rfl)
  split
  · exact {
      covered := hcov
      createdBlob := hcb
      orefCreated := horef
      prefCreated := fun u hu => absurd hu (by simp)
      gensLe := by
        intro pc hpc
        rcases List.mem_append.mp hpc with h | h
        · exact le_trans (hI.gensLe pc h) (Nat.le_succ _)
        · rw [List.mem_singleton] at h
          rw [h]
      gensNodup := by
        rw [List.pairwise_append]
        refine ⟨hI.gensNodup, List.pairwise_singleton _ _, ?_⟩
        intro a ha b hb
        rw [List.mem_singleton] at hb
        rw [hb]
        have := hI.gensLe a ha
        show a.2.gen ≠ s.gen + 1
        omega
      freshKind := fun _ _ _ _ => rfl
      pIff := by simp }
  · exact {
      covered := hcov
      createdBlob := hcb
      orefCreated := horef
      prefCreated := fun u hu => absurd hu (by simp)
      gensLe := hI.gensLe
      gensNodup := hI.gensNodup
      freshKind := fun _ _ _ _ => rfl
      pIff := by simp }

/-- Starting a call whose kind is neither upload- nor toggle-initiated
preserves the invariant (the loading flag is irrelevant to it). -/
lemma inv_startCall (s : CState) (k : CallKind)
    (hk : k = CallKind.buttonBg ∨ k = CallKind.enhance) (hI : Inv s) :
    Inv (startCall s k) := by
  rw [startCall]
  exact {
    covered := hI.covered
    createdBlob := hI.createdBlob
    orefCreated := hI.orefCreated
    prefCreated := hI.prefCreated
    gensLe := by
      intro pc hpc
      rcases List.mem_append.mp hpc with h | h
      · exact le_trans (hI.gensLe pc h) (Nat.le_succ _)
      · rw [List.mem_singleton] at h
        rw [h]
    gensNodup := by
      rw [List.pairwise_append]
      refine ⟨hI.gensNodup, List.pairwise_singleton _ _, ?_⟩
      intro a ha b hb
      rw [List.mem_singleton] at hb
      rw [hb]
      have := hI.gensLe a ha
      show a.2.gen ≠ s.gen + 1
      omega
    freshKind := by
      intro pc hpc hgen hkind
      have hg2 : pc.2.gen = s.gen + 1 := hgen
      rcases List.mem_append.mp hpc with h | h
      · have := hI.gensLe pc h
        omega
      · rw [List.mem_singleton] at h
        rw [h] at hkind
        rcases hk with rfl | rfl <;> rcases hkind with h2 | h2 <;> exact CallKind.noConfusion h2
    pIff := hI.pIff }

lemma inv_loadTrue (s : CState) (hI : Inv s) : Inv { s with loadingRemoveBg := true } :=
  { covered := hI.covered, createdBlob := hI.createdBlob, orefCreated := hI.orefCreated
    prefCreated := hI.prefCreated, gensLe := hI.gensLe, gensNodup := hI.gensNodup
    freshKind := hI.freshKind, pIff := hI.pIff }

lemma inv_loadTrueE (s : CState) (hI : Inv s) : Inv { s with loadingEnhance := true } :=
  { covered := hI.covered, createdBlob := hI.createdBlob, orefCreated := hI.orefCreated
    prefCreated := hI.prefCreated, gensLe := hI.gensLe, gensNodup := hI.gensNodup
    freshKind := hI.freshKind, pIff := hI.pIff }

lemma inv_removeBg (s : CState) (hI : Inv s) : Inv (handleRemoveBg s) := by
  rw [handleRemoveBg]
  cases s.currentImageBlob with
  | none => exact hI
  | some b =>
    by_cases h : s.loadingRemoveBg = true
    · rw [if_pos h]
      exact hI
    · rw [if_neg h]
      exact inv_loadTrue _ (inv_startCall s CallKind.buttonBg (Or.inl rfl) hI)

lemma inv_enhance (s : CState) (hI : Inv s) : Inv (handleEnhance s) := by
  rw [handleEnhance]
  cases s.currentImageBlob with
  | none => exact hI
  | some b =>
    by_cases h : s.loadingEnhance = true
    · rw [if_pos h]
      exact hI
    · rw [if_neg h]
      exact inv_loadTrueE _ (inv_startCall s CallKind.enhance (Or.inr rfl) hI)

lemma inv_cancel (s : CState) (hI : Inv s) : Inv (handleCancelProcessing s) := by
  rw [handleCancelProcessing]
  exact {
    covered := hI.covered
    createdBlob := hI.createdBlob
    orefCreated := hI.orefCreated
    prefCreated := hI.prefCreated
    gensLe := fun pc h => le_trans (hI.gensLe pc h) (Nat.le_succ _)
    gensNodup := hI.gensNodup
    freshKind := by
      intro pc hpc hgen hkind
      have hg2 : pc.2.gen = s.gen + 1 := hgen
      have := hI.gensLe pc hpc
      omega
    pIff := hI.pIff }

lemma inv_clear (s : CState) (hI : Inv s) : Inv (handleClearDesign s) := by
  rw [handleClearDesign_eq]
  exact {
    covered := by
      intro u hu
      left
      rcases hI.covered u hu with hr | ho | hp
      · exact List.mem_append_left _ (List.mem_append_left _ hr)
      · apply List.mem_append_left
        apply List.mem_append_right
        rw [ho]
        obtain ⟨k, hk, rfl⟩ := hI.createdBlob u hu
        exact mem_revList_self _ rfl
      · apply List.mem_append_right
        rw [hp]
        obtain ⟨k, hk, rfl⟩ := hI.createdBlob u hu
        exact mem_revList_self _ rfl
    createdBlob := hI.createdBlob
    orefCreated := fun u hu => absurd hu (by simp)
    prefCreated := fun u hu => absurd hu (by simp)
    gensLe := hI.gensLe
    gensNodup := hI.gensNodup
    freshKind := fun _ _ _ _ => rfl
    pIff := by simp }

/-- The invariant only depends on a handful of fields. -/
lemma inv_of_eq_fields (s t : CState)
    (h1 : t.createdUrls = s.createdUrls) (h2 : t.revocations = s.revocations)
    (h3 : t.originalBlobUrlRef = s.originalBlobUrlRef)
    (h4 : t.processedBlobUrlRef = s.processedBlobUrlRef)
    (h5 : t.nextBlobId = s.nextBlobId) (h6 : t.calls = s.calls) (h7 : t.gen = s.gen)
    (h8 : t.processedImageBlob = s.processedImageBlob)
    (hI : Inv s) : Inv t := by
  constructor
  · rw [h1, h2, h3, h4]
    exact hI.covered
  · rw [h1, h5]
    exact hI.createdBlob
  · rw [h3, h1]
    exact hI.orefCreated
  · rw [h4, h1]
    exact hI.prefCreated
  · rw [h6, h7]
    exact hI.gensLe
  · rw [h6]
    exact hI.gensNodup
  · rw [h6, h7, h4]
    exact hI.freshKind
  · rw [h8, h4]
    exact hI.pIff

lemma inv_toggle (s : CState) (e : Bool) (hI : Inv s) : Inv (handleToggleRemoveBg s e) := by
  cases e with
  | false =>
    by_cases hu : truthyU s.originalImageUrl = true
    · by_cases hbs : s.originalImageBlob.isSome = true
      · rw [toggleOff_eq s hu hbs]
        obtain ⟨d, n, hd⟩ := updateDims_eq _ _
        rw [hd]
        exact inv_of_eq_fields s _ rfl rfl rfl rfl rfl rfl rfl rfl hI
      · rw [toggleFlagOnly_eq s false (by simp [hbs]) (by simp) (by simp)]
        exact inv_of_eq_fields s _ rfl rfl rfl rfl rfl rfl rfl rfl hI
    · rw [toggleFlagOnly_eq s false (by simp [hu]) (by simp) (by simp)]
      exact inv_of_eq_fields s _ rfl rfl rfl rfl rfl rfl rfl rfl hI
  | true =>
    by_cases hcached : (truthyU s.processedImageUrl && s.processedImageBlob.isSome) = true
    · have hand := hcached
      simp only [Bool.and_eq_true] at hand
      obtain ⟨hpu, hpb⟩ := hand
      rw [toggleOnCached_eq s hpu hpb]
      obtain ⟨d, n, hd⟩ := updateDims_eq _ _
      rw [hd]
      exact inv_of_eq_fields s _ rfl rfl rfl rfl rfl rfl rfl rfl hI
    · by_cases hproc : (s.originalImageBlob.isSome && !s.processedImageBlob.isSome) = true
      · have hand2 := hproc
        simp only [Bool.and_eq_true] at hand2
        obtain ⟨hob, hnp⟩ := hand2
        have hnp2 : s.processedImageBlob.isSome = false := by simpa using hnp
        have hpn : s.processedImageBlob = none := by
          cases hpb2 : s.processedImageBlob with
          | none => rfl
          | some x =>
            rw [hpb2] at hnp2
            simp at hnp2
        rw [toggleOnProcess_eq s (fun hx => hcached (by rw [hx.1, hx.2]; rfl)) hob hnp2]
        refine { covered := hI.covered, createdBlob := hI.createdBlob
                 orefCreated := hI.orefCreated, prefCreated := hI.prefCreated
                 gensLe := ?_, gensNodup := ?_, freshKind := ?_, pIff := hI.pIff }
        · intro pc hpc
          rcases List.mem_append.mp hpc with h | h
          · exact le_trans (hI.gensLe pc h) (Nat.le_succ _)
          · rw [List.mem_singleton] at h
            rw [h]
        · rw [List.pairwise_append]
          refine ⟨hI.gensNodup, List.pairwise_singleton _ _, ?_⟩
          intro a ha b hb
          rw [List.mem_singleton] at hb
          rw [hb]
          have := hI.gensLe a ha
          show a.2.gen ≠ s.gen + 1
          omega
        · intro pc hpc hgen hkind
          exact hI.pIff.mp hpn
      · rw [toggleFlagOnly_eq s true (by simp)
          (by intro hx; exact hcached (by simpa using hx))
          (by intro hx; exact hproc (by simpa using hx))]
        exact inv_of_eq_fields s _ rfl rfl rfl rfl rfl rfl rfl rfl hI

lemma setPhase_gen_kind (cid : ℕ) (ph : CallPhase) (p : ℕ × PCall) :
    ((if p.1 = cid then (p.1, { p.2 with phase := ph }) else p) : ℕ × PCall).2.gen = p.2.gen
    ∧ ((if p.1 = cid then (p.1, { p.2 with phase := ph }) else p) : ℕ × PCall).2.kind
        = p.2.kind := by
  by_cases h : p.1 = cid
  · rw [if_pos h]
    exact ⟨rfl, rfl⟩
  · rw [if_neg h]
    exact ⟨rfl, rfl⟩

lemma inv_fetchOk (s : CState) (cid : ℕ) (r : RespHeaders) (s' : CState) (hI : Inv s)
    (h : stepFetchOk s cid r = some s') : Inv s' := by
  cases hl : lookupCall s cid with
  | none =>
    simp only [stepFetchOk, hl] at h
    exact absurd h (by simp)
  | some c =>
    simp only [stepFetchOk, hl] at h
    by_cases hcond : (c.phase = CallPhase.awaitFetch ∧ c.gen = s.gen)
    · rw [if_pos hcond] at h
      obtain rfl := Option.some_injective _ h
      obtain ⟨a, bb, cc, hsh⟩ := applyHeaders_shape s r
      rw [hsh]
      refine { covered := hI.covered, createdBlob := hI.createdBlob
               orefCreated := hI.orefCreated, prefCreated := hI.prefCreated
               gensLe := ?_, gensNodup := ?_, freshKind := ?_, pIff := hI.pIff }
      · intro pc hpc
        rw [setPhase] at hpc
        obtain ⟨pc0, hpc0, rfl⟩ := List.mem_map.mp hpc
        show _ ≤ s.gen
        rw [(setPhase_gen_kind cid CallPhase.awaitBlob pc0).1]
        exact hI.gensLe pc0 hpc0
      · show (setPhase s.calls cid CallPhase.awaitBlob).Pairwise _
        rw [setPhase, List.pairwise_map]
        apply hI.gensNodup.imp
        intro x y hxy
        rw [(setPhase_gen_kind cid CallPhase.awaitBlob x).1,
          (setPhase_gen_kind cid CallPhase.awaitBlob y).1]
        exact hxy
      · intro pc hpc hgen hkind
        rw [setPhase] at hpc
        obtain ⟨pc0, hpc0, rfl⟩ := List.mem_map.mp hpc
        rw [(setPhase_gen_kind cid CallPhase.awaitBlob pc0).1] at hgen
        rw [(setPhase_gen_kind cid CallPhase.awaitBlob pc0).2] at hkind
        exact hI.freshKind pc0 hpc0 hgen hkind
    · rw [if_neg hcond] at h
      exact absurd h (by simp)

lemma inv_finishCall (s : CState) (k : CallKind) (cid : ℕ) (hI : Inv s) :
    Inv (finishCall s k cid) := by
  have hsub : ∀ pc ∈ removeCall s.calls cid, pc ∈ s.calls := by
    intro pc h
    exact (List.mem_filter.mp h).1
  have hpw : (removeCall s.calls cid).Pairwise (fun a b => a.2.gen ≠ b.2.gen) :=
    hI.gensNodup.sublist (List.filter_sublist _)
  cases k <;>
    exact { covered := hI.covered, createdBlob := hI.createdBlob
            orefCreated := hI.orefCreated, prefCreated := hI.prefCreated
            gensLe := fun pc h => hI.gensLe pc (hsub pc h)
            gensNodup := hpw
            freshKind := fun pc h => hI.freshKind pc (hsub pc h)
            pIff := hI.pIff }

lemma inv_fetchErr (s : CState) (cid : ℕ) (s' : CState) (hI : Inv s)
    (h : stepFetchErr s cid = some s') : Inv s' := by
  cases hl : lookupCall s cid with
  | none =>
    simp only [stepFetchErr, hl] at h
    exact absurd h (by simp)
  | some c =>
    simp only [stepFetchErr, hl] at h
    by_cases hp : c.phase = CallPhase.awaitFetch
    · rw [if_pos hp] at h
      obtain rfl := Option.some_injective _ h
      exact inv_finishCall s c.kind cid hI
    · rw [if_neg hp] at h
      exact absurd h (by simp)

lemma inv_blobErr (s : CState) (cid : ℕ) (s' : CState) (hI : Inv s)
    (h : stepBlobErr s cid = some s') : Inv s' := by
  cases hl : lookupCall s cid with
  | none =>
    simp only [stepBlobErr, hl] at h
    exact absurd h (by simp)
  | some c =>
    simp only [stepBlobErr, hl] at h
    by_cases hp : c.phase = CallPhase.awaitBlob
    · rw [if_pos hp] at h
      obtain rfl := Option.some_injective _ h
      exact inv_finishCall s c.kind cid hI
    · rw [if_neg hp] at h
      exact absurd h (by simp)

lemma inv_dims (s : CState) (did : ℕ) (r : Option (ℕ × ℕ)) (s' : CState) (hI : Inv s)
    (h : stepDims s did r = some s') : Inv s' := by
  cases hl : s.dimReqs.lookup did with
  | none =>
    simp only [stepDims, hl] at h
    exact absurd h (by simp)
  | some u =>
    simp only [stepDims, hl] at h
    cases r with
    | none =>
      obtain rfl := Option.some_injective _ h
      exact inv_of_eq_fields s _ rfl rfl rfl rfl rfl rfl rfl rfl hI
    | some nwh =>
      obtain rfl := Option.some_injective _ h
      exact inv_of_eq_fields s _ rfl rfl rfl rfl rfl rfl rfl rfl hI

lemma createdBlob_snoc (s : CState) (hI : Inv s) :
    ∀ u ∈ s.createdUrls ++ [Url.blobU s.nextBlobId],
      ∃ k, k < s.nextBlobId + 1 ∧ u = Url.blobU k := by
  intro u hu
  rcases List.mem_append.mp hu with hu | hu
  · obtain ⟨k, hk, rfl⟩ := hI.createdBlob u hu
    exact ⟨k, by omega, rfl⟩
  · rw [List.mem_singleton] at hu
    exact ⟨s.nextBlobId, by omega, hu⟩

lemma inv_blobOk (s : CState) (cid : ℕ) (b : ImgBlob) (s' : CState) (hI : Inv s)
    (h : stepBlobOk s cid b = some s') : Inv s' := by
  cases hl : lookupCall s cid with
  | none =>
    simp only [stepBlobOk, hl] at h
    exact absurd h (by simp)
  | some c =>
    obtain ⟨cg, ck, cp⟩ := c
    simp only [stepBlobOk, hl] at h
    by_cases hcond : (cp = CallPhase.awaitBlob ∧ cg = s.gen)
    · obtain ⟨rfl, rfl⟩ := hcond
      rw [if_pos ⟨rfl, rfl⟩] at h
      obtain rfl := Option.some_injective _ h
      have hmem : (cid, (⟨s.gen, ck, CallPhase.awaitBlob⟩ : PCall)) ∈ s.calls := lookup_mem hl
      have hsub : ∀ pc ∈ removeCall s.calls cid, pc ∈ s.calls := by
        intro pc hp
        exact (List.mem_filter.mp hp).1
      have hgle : ∀ pc ∈ removeCall s.calls cid, (pc : ℕ × PCall).2.gen ≤ s.gen :=
        fun pc hp => hI.gensLe pc (hsub pc hp)
      have hnd : (removeCall s.calls cid).Pairwise (fun a b => a.2.gen ≠ b.2.gen) :=
        hI.gensNodup.sublist (List.filter_sublist _)
      have hnone : ∀ pc ∈ removeCall s.calls cid, (pc : ℕ × PCall).2.gen ≠ s.gen := by
        intro pc hpc hgeq
        have hpcmem : pc ∈ s.calls := hsub pc hpc
        have hne : pc ≠ (cid, (⟨s.gen, ck, CallPhase.awaitBlob⟩ : PCall)) := by
          intro hEq
          have hflt := (List.mem_filter.mp hpc).2
          rw [hEq] at hflt
          simp at hflt
        have hR := hI.gensNodup.forall (fun x y hxy => Ne.symm hxy) hpcmem hmem hne
        exact hR hgeq
      have horef2 : ∀ u : Url, s.originalBlobUrlRef = some u →
          u ∈ s.createdUrls ++ [Url.blobU s.nextBlobId] :=
        fun u hu => List.mem_append_left _ (hI.orefCreated u hu)
      have hprefF : ∀ u : Url, (some (Url.blobU s.nextBlobId) : Option Url) = some u →
          u ∈ s.createdUrls ++ [Url.blobU s.nextBlobId] := by
        intro u hu
        obtain rfl := Option.some_injective _ hu
        exact List.mem_append_right _ (List.mem_singleton.mpr rfl)
      cases ck with
      | uploadBg =>
        have hprefNone : s.processedBlobUrlRef = none :=
          hI.freshKind _ hmem rfl (Or.inl rfl)
        show Inv (finishCall (blobOkUpload s b) CallKind.uploadBg cid)
        rw [blobOkUpload_eq]
        exact {
          covered := by
            intro u hu
            rcases List.mem_append.mp hu with hu | hu
            · rcases hI.covered u hu with hr | ho | hp
              · exact Or.inl hr
              · exact Or.inr (Or.inl ho)
              · rw [hprefNone] at hp
                exact absurd hp (by simp)
            · rw [List.mem_singleton] at hu
              subst hu
              exact Or.inr (Or.inr rfl)
          createdBlob := createdBlob_snoc s hI
          orefCreated := horef2
          prefCreated := hprefF
          gensLe := hgle
          gensNodup := hnd
          freshKind := fun pc hpc hg _ => absurd hg (hnone pc hpc)
          pIff := by
            show (some b = none) ↔ (some (Url.blobU s.nextBlobId) = none)
            simp }
      | toggleBg =>
        have hprefNone : s.processedBlobUrlRef = none :=
          hI.freshKind _ hmem rfl (Or.inr rfl)
        show Inv (finishCall (blobOkToggle s b) CallKind.toggleBg cid)
        rw [blobOkToggle_eq]
        exact {
          covered := by
            intro u hu
            rcases List.mem_append.mp hu with hu | hu
            · rcases hI.covered u hu with hr | ho | hp
              · exact Or.inl hr
              · exact Or.inr (Or.inl ho)
              · rw [hprefNone] at hp
                exact absurd hp (by simp)
            · rw [List.mem_singleton] at hu
              subst hu
              exact Or.inr (Or.inr rfl)
          createdBlob := createdBlob_snoc s hI
          orefCreated := horef2
          prefCreated := hprefF
          gensLe := hgle
          gensNodup := hnd
          freshKind := fun pc hpc hg _ => absurd hg (hnone pc hpc)
          pIff := by
            show (some b = none) ↔ (some (Url.blobU s.nextBlobId) = none)
            simp }
      | buttonBg =>
        show Inv (finishCall (blobOkButton s b) CallKind.buttonBg cid)
        rw [blobOkButton_eq]
        exact {
          covered := by
            intro u hu
            rcases List.mem_append.mp hu with hu | hu
            · rcases hI.covered u hu with hr | ho | hp
              · exact Or.inl (List.mem_append_left _ (List.mem_append_left _ hr))
              · exact Or.inr (Or.inl ho)
              · left
                apply List.mem_append_left
                apply List.mem_append_right
                rw [hp]
                obtain ⟨k, hk, rfl⟩ := hI.createdBlob u hu
                exact mem_revList_self _ rfl
            · rw [List.mem_singleton] at hu
              subst hu
              exact Or.inr (Or.inr rfl)
          createdBlob := createdBlob_snoc s hI
          orefCreated := horef2
          prefCreated := hprefF
          gensLe := hgle
          gensNodup := hnd
          freshKind := fun pc hpc hg _ => absurd hg (hnone pc hpc)
          pIff := by
            show (some b = none) ↔ (some (Url.blobU s.nextBlobId) = none)
            simp }
      | enhance =>
        show Inv (finishCall (blobOkEnhance s b) CallKind.enhance cid)
        rw [blobOkEnhance_eq]
        exact {
          covered := by
            intro u hu
            rcases List.mem_append.mp hu with hu | hu
            · rcases hI.covered u hu with hr | ho | hp
              · exact Or.inl (List.mem_append_left _ (List.mem_append_left _ hr))
              · exact Or.inr (Or.inl ho)
              · left
                apply List.mem_append_left
                apply List.mem_append_right
                rw [hp]
                obtain ⟨k, hk, rfl⟩ := hI.createdBlob u hu
                exact mem_revList_self _ rfl
            · rw [List.mem_singleton] at hu
              subst hu
              exact Or.inr (Or.inr rfl)
          createdBlob := createdBlob_snoc s hI
          orefCreated := horef2
          prefCreated := hprefF
          gensLe := hgle
          gensNodup := hnd
          freshKind := fun pc hpc hg _ => absurd hg (hnone pc hpc)
          pIff := by
            show (some b = none) ↔ (some (Url.blobU s.nextBlobId) = none)
            simp }
    · rw [if_neg hcond] at h
      exact absurd h (by simp)

lemma inv_step (s : CState) (e : Ev) (s' : CState) (hI : Inv s)
    (h : step s e = some s') : Inv s' := by
  cases e with
  | upload f =>
    simp only [step] at h
    obtain rfl := Option.some_injective _ h
    exact inv_upload s f hI
  | removeBg =>
    simp only [step] at h
    obtain rfl := Option.some_injective _ h
    exact inv_removeBg s hI
  | enhance =>
    simp only [step] at h
    obtain rfl := Option.some_injective _ h
    exact inv_enhance s hI
  | toggle e =>
    simp only [step] at h
    obtain rfl := Option.some_injective _ h
    exact inv_toggle s e hI
  | cancelProcessing =>
    simp only [step] at h
    obtain rfl := Option.some_injective _ h
    exact inv_cancel s hI
  | clearDesign =>
    simp only [step] at h
    obtain rfl := Option.some_injective _ h
    exact inv_clear s hI
  | fetchOk cid r =>
    simp only [step] at h
    exact inv_fetchOk s cid r s' hI h
  | fetchErr cid =>
    simp only [step] at h
    exact inv_fetchErr s cid s' hI h
  | blobOk cid b =>
    simp only [step] at h
    exact inv_blobOk s cid b s' hI h
  | blobErr cid =>
    simp only [step] at h
    exact inv_blobErr s cid s' hI h
  | dims did r =>
    simp only [step] at h
    exact inv_dims s did r s' hI h

lemma inv_run (evs : List Ev) (s0 s : CState) (hI : Inv s0)
    (h : run s0 evs = some s) : Inv s := by
  induction evs generalizing s0 with
  | nil =>
    rw [run] at h
    obtain rfl := Option.some_injective _ h
    exact hI
  | cons e es ih =>
    rw [run] at h
    cases hs : step s0 e with
    | none =>
      rw [hs] at h
      exact absurd h (by simp)
    | some s1 =>
      rw [hs] at h
      exact ih s1 (inv_step s0 e s1 hI hs) h

lemma run_snoc (s0 : CState) (evs : List Ev) (e : Ev) :
    run s0 (evs ++ [e]) = (run s0 evs).bind (fun s1 => step s1 e) := by
  induction evs generalizing s0 with
  | nil =>
    simp only [List.nil_append, run]
    cases hs : step s0 e with
    | none => simp [hs]
    | some s1 => simp [hs, run]
  | cons a as ih =>
    rw [List.cons_append, run, run]
    cases hs : step s0 a with
    | none => rfl
    | some s1 => exact ih s1

/-- C4 amended: along every operation sequence ending in Clear() (and
likewise at component teardown), each blob URL created by the session
has been revoked at least once.  Exactly-once does not hold — a URL
serving as both the processed and the current display handle is revoked
twice by a subsequent RemoveBackground/Enhance, and a revoked original
URL can be re-displayed by toggling — see the counterexample. -/
theorem C4_release_at_least_once :
    (∀ evs s, run initState (evs ++ [Ev.clearDesign]) = some s →
      ∀ u ∈ s.createdUrls, u ∈ s.revocations)
    ∧ (∀ evs s, run initState evs = some s →
      ∀ u ∈ (teardown s).createdUrls, u ∈ (teardown s).revocations) := by
  have key : ∀ s, Inv s → ∀ u ∈ s.createdUrls,
      u ∈ s.revocations ++ revList s.originalBlobUrlRef ++ revList s.processedBlobUrlRef := by
    intro s hI u hu
    rcases hI.covered u hu with hr | ho | hp
    · exact List.mem_append_left _ (List.mem_append_left _ hr)
    · apply List.mem_append_left
      apply List.mem_append_right
      rw [ho]
      obtain ⟨k, hk, rfl⟩ := hI.createdBlob u hu
      exact mem_revList_self _ rfl
    · apply List.mem_append_right
      rw [hp]
      obtain ⟨k, hk, rfl⟩ := hI.createdBlob u hu
      exact mem_revList_self _ rfl
  constructor
  · intro evs s hrun u hu
    rw [run_snoc] at hrun
    cases h0 : run initState evs with
    | none =>
      rw [h0] at hrun
      exact absurd hrun (by simp)
    | some s0 =>
      rw [h0] at hrun
      simp only [Option.bind, step] at hrun
      obtain rfl := Option.some_injective _ hrun
      have hI := inv_run evs initState s0 inv_init h0
      have hu0 : u ∈ s0.createdUrls := by
        rw [handleClearDesign_eq] at hu
        exact hu
      have := key s0 hI u hu0
      rw [handleClearDesign_eq]
      exact this
  · intro evs s hrun u hu
    have hI := inv_run evs initState s inv_init hrun
    have hu0 : u ∈ s.createdUrls := by
      rw [teardown_eq] at hu
      exact hu
    have := key s hI u hu0
    rw [teardown_eq]
    exact this

/-- C4 witness: a concrete upload-then-clear run revokes the single
created blob URL. -/
theorem C4_release_at_least_once_witness :
    Url.blobU 0 ∈ (((run initState ([Ev.toggle false, Ev.upload 4] ++ [Ev.clearDesign])).getD
      initState)).revocations :=
  C4_release_at_least_once.1 [Ev.toggle false, Ev.upload 4]
    ((run initState ([Ev.toggle false, Ev.upload 4] ++ [Ev.clearDesign])).getD initState)
    rfl (Url.blobU 0) (by decide)

/-- C10 witness: one concrete stepper increment from `(10, 10)` stays in
range and two-decimal. -/
theorem C10_size_controls_invariant_witness :
    ((MIN_SIZE ≤ (sizeStep 10 10 SizeOp.incW).1 ∧ (sizeStep 10 10 SizeOp.incW).1 ≤ MAX_SIZE)
      ∧ (MIN_SIZE ≤ (sizeStep 10 10 SizeOp.incW).2 ∧ (sizeStep 10 10 SizeOp.incW).2 ≤ MAX_SIZE))
    ∧ (isTwoDec 10 → isTwoDec 10 →
        isTwoDec (sizeStep 10 10 SizeOp.incW).1 ∧ isTwoDec (sizeStep 10 10 SizeOp.incW).2) :=
  C10_size_controls_invariant 10 10 SizeOp.incW (by norm_num [MIN_SIZE])
    (by norm_num [MAX_SIZE]) (by norm_num [MIN_SIZE]) (by norm_num [MAX_SIZE])

end Shopify
